import Mathlib

/-!
# Ultimate Developer Tools — verification of the server's transform library and router

A shallow embedding of the relevant parts of `src/server.js` (a Node.js HTTP
service exposing text/data transformation tools), together with proofs about
the embedded definitions.

Modelling conventions:
* JavaScript strings are modelled as Lean `String`s / `List Char` (sequences of
  Unicode scalar values); the claims under study quantify over well-formed text
  only, so lone UTF-16 surrogates are outside the model.
* Byte strings (Node `Buffer`s) are `List Nat` with every element `< 256`.
* JSON values are modelled by `JsValue`, with numbers restricted to integers
  (IEEE-754 fractional/exponent literal semantics are outside the scope of the
  claims proved here; the embedded JSON text parser simply does not accept
  fractional or exponent number literals).
* Fallible operations return `Option`/`Except`.
-/

namespace UDT

/-! ## JSON / JavaScript value model -/

/-- A JSON-compatible JavaScript value.  Numbers are modelled as integers
(see the module header).  Object fields are an ordered association list,
mirroring JavaScript property insertion order. -/
inductive JsValue : Type where
  | null : JsValue
  | bool (b : Bool) : JsValue
  | num (n : Int) : JsValue
  | str (s : String) : JsValue
  | arr (elems : List JsValue) : JsValue
  | obj (fields : List (String × JsValue)) : JsValue

/-- JavaScript property assignment `o[k] = v` on an object modelled as an
ordered association list: an existing key is updated in place, a new key is
appended. -/
def objSet {α : Type} : List (String × α) → String → α → List (String × α)
  | [], k, v => [(k, v)]
  | (k', v') :: rest, k, v =>
    if k' = k then (k, v) :: rest else (k', v') :: objSet rest k v

/-- JavaScript falsiness of a JSON-parsed value: `null`, `false`, `0` and the
empty string are falsy; arrays and objects are always truthy. -/
def jsFalsy : JsValue → Bool
  | .null => true
  | .bool b => !b
  | .num n => n = 0
  | .str s => s = ""
  | .arr _ => false
  | .obj _ => false

/-- Truthiness of a (possibly absent) field: `undefined` (absent) is falsy. -/
def jsTruthyOpt : Option JsValue → Bool
  | none => false
  | some v => !jsFalsy v

/-! ## UTF-8

`Buffer.from(text)` encodes a JavaScript string to its UTF-8 bytes and
`buf.toString('utf8')` decodes bytes back, substituting U+FFFD for invalid
sequences (never throwing).  Both are modelled here at the byte level
(`List Nat`, each element `< 256`). -/

/-- UTF-8 encoding of one Unicode scalar value as its 1–4 byte values. -/
def utf8EncodeChar (c : Char) : List Nat :=
  let n := c.toNat
  if n < 0x80 then [n]
  else if n < 0x800 then [0xC0 + n / 0x40, 0x80 + n % 0x40]
  else if n < 0x10000 then
    [0xE0 + n / 0x1000, 0x80 + n / 0x40 % 0x40, 0x80 + n % 0x40]
  else
    [0xF0 + n / 0x40000, 0x80 + n / 0x1000 % 0x40, 0x80 + n / 0x40 % 0x40,
      0x80 + n % 0x40]

/-- `Buffer.from(text)`: the UTF-8 bytes of a string (modelled on the
character list of the string). -/
def utf8Encode : List Char → List Nat
  | [] => []
  | c :: rest => utf8EncodeChar c ++ utf8Encode rest

/-- The U+FFFD replacement character emitted for invalid byte sequences. -/
def replChar : Char := Char.ofNat 0xFFFD

/-- `buf.toString('utf8')`: UTF-8 decoding with replacement (the WHATWG
decoder used by Node).  Truncated or malformed sequences produce U+FFFD and
decoding resynchronises at the offending byte; the byte-range tests on the
second byte reject overlong encodings, surrogates and values above
U+10FFFF exactly as the WHATWG algorithm does. -/
def utf8DecodeReplace : List Nat → List Char
  | [] => []
  | b :: rest =>
    if b < 0x80 then Char.ofNat b :: utf8DecodeReplace rest
    else if b < 0xC2 then replChar :: utf8DecodeReplace rest
    else if b < 0xE0 then
      match rest with
      | [] => [replChar]
      | b2 :: rest2 =>
        if 0x80 ≤ b2 ∧ b2 < 0xC0 then
          Char.ofNat ((b - 0xC0) * 0x40 + (b2 - 0x80)) :: utf8DecodeReplace rest2
        else replChar :: utf8DecodeReplace (b2 :: rest2)
    else if b < 0xF0 then
      match rest with
      | [] => [replChar]
      | b2 :: rest2 =>
        if (if b = 0xE0 then 0xA0 else 0x80) ≤ b2 ∧
            b2 < (if b = 0xED then 0xA0 else 0xC0) then
          match rest2 with
          | [] => [replChar]
          | b3 :: rest3 =>
            if 0x80 ≤ b3 ∧ b3 < 0xC0 then
              Char.ofNat ((b - 0xE0) * 0x1000 + (b2 - 0x80) * 0x40 + (b3 - 0x80)) ::
                utf8DecodeReplace rest3
            else replChar :: utf8DecodeReplace (b3 :: rest3)
        else replChar :: utf8DecodeReplace (b2 :: rest2)
    else if b < 0xF5 then
      match rest with
      | [] => [replChar]
      | b2 :: rest2 =>
        if (if b = 0xF0 then 0x90 else 0x80) ≤ b2 ∧
            b2 < (if b = 0xF4 then 0x90 else 0xC0) then
          match rest2 with
          | [] => [replChar]
          | b3 :: rest3 =>
            if 0x80 ≤ b3 ∧ b3 < 0xC0 then
              match rest3 with
              | [] => [replChar]
              | b4 :: rest4 =>
                if 0x80 ≤ b4 ∧ b4 < 0xC0 then
                  Char.ofNat ((b - 0xF0) * 0x40000 + (b2 - 0x80) * 0x1000 +
                      (b3 - 0x80) * 0x40 + (b4 - 0x80)) :: utf8DecodeReplace rest4
                else replChar :: utf8DecodeReplace (b4 :: rest4)
            else replChar :: utf8DecodeReplace (b3 :: rest3)
        else replChar :: utf8DecodeReplace (b2 :: rest2)
    else replChar :: utf8DecodeReplace rest

/-! ## Base64 (the Node `Buffer` base64 codec)

`Buffer.from(text).toString('base64')` emits canonical padded base64.
`Buffer.from(encoded, 'base64')` is forgiving: it scans the input, skips every
character that is not in its decode table (which also maps the URL-safe
alphabet), and converts the remaining 6-bit values to bytes, so it never
throws. -/

/-- The standard base64 alphabet. -/
def b64Chars : List Char :=
  "ABCDEFGHIJKLMNOPQRSTUVWXYZabcdefghijklmnopqrstuvwxyz0123456789+/".toList

/-- The alphabet character for a 6-bit value. -/
def b64Char (v : Nat) : Char := b64Chars.getD v 'A'

/-- Node's base64 decode table: standard alphabet, plus the URL-safe
characters `-` and `_`; everything else (including `=`) yields no value and
is skipped by the decoder. -/
def b64CharVal (c : Char) : Option Nat :=
  match b64Chars.findIdx? (fun x => x = c) with
  | some i => some i
  | none => if c = '-' then some 62 else if c = '_' then some 63 else none

/-- Canonical base64 encoding of a byte list, processed three bytes at a
time with `=` padding. -/
def b64EncodeBytes : List Nat → List Char
  | [] => []
  | [b1] => [b64Char (b1 / 4), b64Char (b1 % 4 * 16), '=', '=']
  | [b1, b2] =>
    [b64Char (b1 / 4), b64Char (b1 % 4 * 16 + b2 / 16), b64Char (b2 % 16 * 4), '=']
  | b1 :: b2 :: b3 :: rest =>
    b64Char (b1 / 4) :: b64Char (b1 % 4 * 16 + b2 / 16) ::
      b64Char (b2 % 16 * 4 + b3 / 64) :: b64Char (b3 % 64) :: b64EncodeBytes rest

/-- Reassembling bytes from the surviving 6-bit values, four at a time; a
trailing group of two or three values yields one or two bytes, and a lone
trailing value (fewer than 8 bits) yields nothing. -/
def b64SextetsToBytes : List Nat → List Nat
  | s1 :: s2 :: s3 :: s4 :: rest =>
    [s1 * 4 + s2 / 16, s2 % 16 * 16 + s3 / 4, s3 % 4 * 64 + s4] ++
      b64SextetsToBytes rest
  | [s1, s2, s3] => [s1 * 4 + s2 / 16, s2 % 16 * 16 + s3 / 4]
  | [s1, s2] => [s1 * 4 + s2 / 16]
  | _ => []

/-- `Buffer.from(encoded, 'base64')`: skip characters outside the decode
table, then reassemble bytes. -/
def b64DecodeRaw (cs : List Char) : List Nat :=
  b64SextetsToBytes (cs.filterMap b64CharVal)


/-! ## URL encoding (`encodeURIComponent` / `decodeURIComponent`)

`encodeURIComponent` leaves the unreserved characters
(ASCII letters, digits, hyphen, underscore, period, exclamation mark, tilde,
asterisk, apostrophe and parentheses) untouched and percent-encodes every
UTF-8 byte of any other character, using uppercase hex digits.
`decodeURIComponent` reverses this, throwing a `URIError` (modelled as
`none`) on a malformed percent escape or an invalid UTF-8 escape
sequence. -/

/-- The `encodeURIComponent` unreserved set, tested on the character code:
`A`-`Z` (65-90), `a`-`z` (97-122), `0`-`9` (48-57), and the marks
`- _ . ! ~ *` (45, 95, 46, 33, 126, 42), apostrophe (39) and
parentheses (40, 41). -/
def isUriUnreserved (c : Char) : Bool :=
  let n := c.toNat
  (65 ≤ n && n ≤ 90) || (97 ≤ n && n ≤ 122) || (48 ≤ n && n ≤ 57) ||
    n = 45 || n = 95 || n = 46 || n = 33 || n = 126 || n = 42 || n = 39 ||
    n = 40 || n = 41

/-- Uppercase hexadecimal digit for a value below 16. -/
def hexUpper (v : Nat) : Char :=
  if v < 10 then Char.ofNat (48 + v) else Char.ofNat (55 + v)

/-- Percent-escapes for a run of bytes, e.g. `%C3%A9`. -/
def percentBytes : List Nat → List Char
  | [] => []
  | b :: rest => '%' :: hexUpper (b / 16) :: hexUpper (b % 16) :: percentBytes rest

/-- `encodeURIComponent` on the character list of a string. -/
def encodeURIComponent : List Char → List Char
  | [] => []
  | c :: rest =>
    (if isUriUnreserved c then [c] else percentBytes (utf8EncodeChar c)) ++
      encodeURIComponent rest

/-- Value of a hexadecimal digit character (either case). -/
def hexVal (c : Char) : Option Nat :=
  let n := c.toNat
  if 48 ≤ n ∧ n ≤ 57 then some (n - 48)
  else if 65 ≤ n ∧ n ≤ 70 then some (n - 55)
  else if 97 ≤ n ∧ n ≤ 102 then some (n - 87)
  else none

/-- The numeric value of a two-hex-digit escape body. -/
def parseHexPair (h l : Char) : Option Nat :=
  match hexVal h, hexVal l with
  | some hv, some lv => some (hv * 16 + lv)
  | _, _ => none

/-- One escaped UTF-8 continuation byte: a `%` escape whose byte is in
`[0x80, 0xC0)`; returns the byte and the remaining characters. -/
def contByteEsc : List Char → Option (Nat × List Char)
  | p :: h :: l :: rest =>
    if p = '%' then
      match parseHexPair h l with
      | some b => if 0x80 ≤ b ∧ b < 0xC0 then some (b, rest) else none
      | none => none
    else none
  | _ => none

theorem contByteEsc_length {cs : List Char} {b : Nat} {r : List Char}
    (h : contByteEsc cs = some (b, r)) : r.length + 3 = cs.length := by
  match cs with
  | [] => simp [contByteEsc] at h
  | [p] => simp [contByteEsc] at h
  | [p, hh] => simp [contByteEsc] at h
  | p :: hh :: ll :: rest =>
    rw [contByteEsc] at h
    split_ifs at h
    split at h
    · split_ifs at h
      cases h
      simp
    · cases h

/-- Decoding of one percent-escape sequence (the characters after a `%`),
following the ECMAScript `Decode` algorithm: two hex digits give a byte; a
byte with the high bit set must begin a complete escaped UTF-8 sequence
whose continuation bytes are themselves percent escapes in `[0x80, 0xC0)`
and whose decoded scalar value is in range, not overlong and not a
surrogate; any failure is a `URIError`, modelled as `none`.  `k` decodes
the remaining characters. -/
def decodeEscSeq (k : List Char → Option (List Char)) : List Char → Option (List Char)
  | h1 :: l1 :: rest1 =>
    match parseHexPair h1 l1 with
    | some b =>
      if b < 0x80 then (k rest1).map (Char.ofNat b :: ·)
      else if b < 0xC0 then none
      else if b < 0xE0 then
        match contByteEsc rest1 with
        | some (b2, rest2) =>
          let v := (b - 0xC0) * 0x40 + (b2 - 0x80)
          if 0x80 ≤ v then (k rest2).map (Char.ofNat v :: ·)
          else none
        | none => none
      else if b < 0xF0 then
        match contByteEsc rest1 with
        | some (b2, rest2) =>
          match contByteEsc rest2 with
          | some (b3, rest3) =>
            let v := (b - 0xE0) * 0x1000 + (b2 - 0x80) * 0x40 + (b3 - 0x80)
            if 0x800 ≤ v ∧ ¬(0xD800 ≤ v ∧ v < 0xE000) then
              (k rest3).map (Char.ofNat v :: ·)
            else none
          | none => none
        | none => none
      else if b < 0xF8 then
        match contByteEsc rest1 with
        | some (b2, rest2) =>
          match contByteEsc rest2 with
          | some (b3, rest3) =>
            match contByteEsc rest3 with
            | some (b4, rest4) =>
              let v := (b - 0xF0) * 0x40000 + (b2 - 0x80) * 0x1000 +
                (b3 - 0x80) * 0x40 + (b4 - 0x80)
              if 0x10000 ≤ v ∧ v < 0x110000 then
                (k rest4).map (Char.ofNat v :: ·)
              else none
            | none => none
          | none => none
        | none => none
      else none
    | none => none
  | _ => none

/-- `decodeURIComponent` on the character list of a string: a raw `%`
starts an escape sequence (`decodeEscSeq`), any other character stands for
itself.  The first argument is recursion fuel, a termination device only:
every step consumes at least one character, so the wrapper
`decodeURIComponent` below, which supplies the input length as fuel, never
exhausts it. -/
def decodeURIComponentFuel : Nat → List Char → Option (List Char)
  | _, [] => some []
  | 0, _ :: _ => none
  | fuel + 1, c :: rest =>
    if c = '%' then decodeEscSeq (decodeURIComponentFuel fuel) rest
    else (decodeURIComponentFuel fuel rest).map (c :: ·)

/-- `decodeURIComponent`, with the input length as (always sufficient)
fuel. -/
def decodeURIComponent (cs : List Char) : Option (List Char) :=
  decodeURIComponentFuel cs.length cs

/-! ## The library functions of server.js built on the codecs -/

/-- `function base64Encode(text)`: the base64 of the UTF-8 bytes of the
text. -/
def base64Encode (text : String) : String :=
  String.mk (b64EncodeBytes (utf8Encode text.data))

/-- `function base64Decode(encoded)`: forgiving base64 to bytes, then UTF-8
with replacement.  The source wraps this in try/catch rethrowing
`Invalid Base64 string`, but neither `Buffer.from(encoded, 'base64')` nor
`toString('utf8')` ever throws on a string argument, so the catch is
unreachable and the function always returns a value. -/
def base64Decode (encoded : String) : Except String String :=
  Except.ok (String.mk (utf8DecodeReplace (b64DecodeRaw encoded.data)))

/-- `function urlEncode(text)`: `encodeURIComponent(text)`. -/
def urlEncode (text : String) : String :=
  String.mk (encodeURIComponent text.data)

/-- `function urlDecode(encoded)`: `decodeURIComponent(encoded)`; a
`URIError` on malformed input is modelled as `none`. -/
def urlDecode (encoded : String) : Option String :=
  (decodeURIComponent encoded.data).map String.mk


/-! ## Plain string helpers shared by several tools -/

/-- JavaScript `String.prototype.split` with a single-character separator:
`""` splits to `[""]`, and a trailing separator yields a trailing empty
piece. -/
def splitOnChar (sep : Char) : List Char → List (List Char)
  | [] => [[]]
  | c :: rest =>
    if c = sep then [] :: splitOnChar sep rest
    else
      match splitOnChar sep rest with
      | l :: ls => (c :: l) :: ls
      | [] => [[c]]

/-- The ASCII whitespace recognised by `String.prototype.trim` (Unicode
space characters never arise in the claims under study). -/
def isJsSpace (c : Char) : Bool :=
  c = ' ' || c = '\t' || c = '\n' || c = '\r' || c.toNat = 12 || c.toNat = 11

/-- JavaScript `String.prototype.trim` on a character list. -/
def jsTrim (s : List Char) : List Char :=
  ((s.dropWhile isJsSpace).reverse.dropWhile isJsSpace).reverse

/-! ## `findDifferences` (the text-compare tool) -/

/-- One record of the compare tool's output. -/
structure Difference where
  line : Nat
  left : String
  right : String
  type : String
  deriving Repr, DecidableEq

/-- `text.split('\n')` at the `String` level. -/
def splitLines (text : String) : List String :=
  (splitOnChar '\n' text.data).map String.mk

/-- `function findDifferences(text1, text2)`: split both texts into lines,
iterate the line index up to the longer line count (a missing line reads as
the empty string), and record one `Difference` per differing index; the
`type` mirrors the truthiness test `line1 && line2 ? 'modified' : line1 ?
'removed' : 'added'`. -/
def findDifferences (text1 text2 : String) : List Difference :=
  let lines1 := splitLines text1
  let lines2 := splitLines text2
  let maxLines := max lines1.length lines2.length
  (List.range maxLines).filterMap (fun i =>
    let line1 := lines1.getD i ""
    let line2 := lines2.getD i ""
    if line1 = line2 then none
    else some
      { line := i + 1
        left := line1
        right := line2
        type :=
          if line1 ≠ "" ∧ line2 ≠ "" then "modified"
          else if line1 ≠ "" then "removed" else "added" })

/-! ## `csvToJson` -/

/-- `cell.trim().replace(/"/g, '')`: trim, then delete every double
quote. -/
def csvCell (cell : List Char) : String :=
  String.mk ((jsTrim cell).filter (fun c => c ≠ '"'))

/-- `headers.forEach((header, index) => obj[header] = values[index] || '')`:
build one row object; a missing or empty cell becomes the empty string. -/
def csvRowObj (headers values : List String) : List (String × String) :=
  headers.enum.foldl (fun obj p => objSet obj p.2 (values.getD p.1 "")) []

/-- `function csvToJson(csvString)`: keep the lines that are non-blank
after trimming, read the first as the header row, and key each later row's
cells by the header names. -/
def csvToJson (csvString : String) : List (List (String × String)) :=
  let lines := (splitOnChar '\n' csvString.data).filter (fun line => jsTrim line ≠ [])
  match lines with
  | [] => []
  | headerLine :: rowLines =>
    let headers := (splitOnChar ',' headerLine).map csvCell
    rowLines.map (fun line => csvRowObj headers ((splitOnChar ',' line).map csvCell))

/-! ## `creditCardValidator` -/

/-- Luhn doubling of one digit, subtracting 9 when the double exceeds 9. -/
def luhnDouble (d : Nat) : Nat := if 2 * d > 9 then 2 * d - 9 else 2 * d

/-- The Luhn sum over digits listed from the rightmost first, doubling
every second digit (`shouldDouble` starts false). -/
def luhnSumAux : List Nat → Bool → Nat
  | [], _ => 0
  | d :: ds, dbl => (if dbl then luhnDouble d else d) + luhnSumAux ds (!dbl)

/-- `number.replace(/\D/g, '')`: the digit characters of the input. -/
def digitChars (s : String) : List Char :=
  s.data.filter (fun c => '0' ≤ c ∧ c ≤ '9')

/-- The digit values of the cleaned card number, most significant first. -/
def digitsOf (s : String) : List Nat :=
  (digitChars s).map (fun c => c.toNat - 48)

/-- `function getCardType(number)`: leading-digit patterns tried in order
visa (`^4`), mastercard (`^5[1-5]`), amex (`^3[47]`), discover
(`^6(?:011|5)`). -/
def getCardType (ds : List Nat) : String :=
  let visa := ds.head? = some 4
  let mastercard :=
    match ds with
    | 5 :: d :: _ => decide (1 ≤ d ∧ d ≤ 5)
    | _ => false
  let amex :=
    match ds with
    | 3 :: d :: _ => d = 4 || d = 7
    | _ => false
  let discover :=
    match ds with
    | 6 :: 0 :: 1 :: 1 :: _ => true
    | 6 :: 5 :: _ => true
    | _ => false
  if visa then "visa"
  else if mastercard then "mastercard"
  else if amex then "amex"
  else if discover then "discover"
  else "unknown"

/-- `function formatCardNumber(number)`: groups of 4-4-4-4 for 16 digits,
4-6-5 for 15, otherwise unchanged. -/
def formatCardNumber (s : List Char) : String :=
  if s.length = 16 then
    String.mk (s.take 4 ++ ' ' :: ((s.drop 4).take 4 ++ ' ' ::
      ((s.drop 8).take 4 ++ ' ' :: s.drop 12)))
  else if s.length = 15 then
    String.mk (s.take 4 ++ ' ' :: ((s.drop 4).take 6 ++ ' ' :: s.drop 10))
  else String.mk s

/-- The result record of the credit-card tool. -/
structure CardValidation where
  valid : Bool
  type : String
  formatted : String
  deriving Repr, DecidableEq

/-- `function creditCardValidator(number)`: strip non-digits, walk the
digits from the rightmost computing the Luhn sum, and report validity
(`sum % 10 === 0`), card type and formatted number. -/
def creditCardValidator (number : String) : CardValidation :=
  let cleaned := digitChars number
  let ds := cleaned.map (fun c => c.toNat - 48)
  let sum := luhnSumAux ds.reverse false
  { valid := sum % 10 = 0
    type := getCardType ds
    formatted := formatCardNumber cleaned }

/-! ## `trackVisitor` (the visitor counter store)

The visitor file is modelled as an ordered association list of fields.
Field values written by this code are integers (counters) or strings (the
`lastUpdated` timestamp).  `x++` on a string field coerces it through
`Number(...)`: the ISO timestamp strings this code stores are never
numeric, so the model maps that case to NaN; the NaN is transient, since
`lastUpdated` is overwritten with a fresh string at the end of every call.
The real current time is passed in as the `now` argument; the absent file
is `none`, and the claims under study assume no I/O failure, so the
catch-all branch of the source (which returns a zeroed record after
logging) is outside the model. -/

/-- A field value of the visitor record. -/
inductive VisitorVal : Type where
  | int (n : Int)
  | str (s : String)
  | nanv
  deriving Repr, DecidableEq

/-- `data[key]++` on a possibly absent field: a number increments, a
(non-numeric) string or NaN stays NaN, an absent field becomes NaN. -/
def visIncVal : Option VisitorVal → VisitorVal
  | some (.int n) => .int (n + 1)
  | some (.str _) => .nanv
  | some .nanv => .nanv
  | none => .nanv

/-- The visitor record type. -/
abbrev VisitorData := List (String × VisitorVal)

/-- `function trackVisitor(type = 'web')` (success path): start from the
stored record, or a zeroed one if the file is absent; `data.total++`; then
`data[type]++` if that key exists, else `data[type] = 1`; finally refresh
`lastUpdated` and persist.  Note that `type = 'total'` makes `data[type]`
the same field as `data.total`, which is then incremented twice. -/
def trackVisitor (ty : String) (now : String) (file : Option VisitorData) :
    VisitorData :=
  let data :=
    match file with
    | some d => d
    | none => [("total", .int 0), ("web", .int 0), ("api", .int 0),
        ("lastUpdated", .str now)]
  let data := objSet data "total" (visIncVal (List.lookup "total" data))
  let data :=
    if (List.lookup ty data).isSome then objSet data ty (visIncVal (List.lookup ty data))
    else objSet data ty (.int 1)
  objSet data "lastUpdated" (.str now)


/-- `function getVisitorStats()` (success path): the stored record, or a
zeroed one if the file is absent. -/
def getVisitorStats (now : String) (store : Option VisitorData) : VisitorData :=
  match store with
  | some d => d
  | none => [("total", .int 0), ("web", .int 0), ("api", .int 0),
      ("lastUpdated", .str now)]


/-- No key occurs twice in an association list. -/
def nodupKeysG {α : Type} : List (String × α) → Bool
  | [] => true
  | (k, _) :: rest => !(rest.any (fun p => p.1 = k)) && nodupKeysG rest

/-! ## JSON text (`JSON.parse` / `JSON.stringify`)

The parser follows the JSON grammar as accepted by `JSON.parse`, with two
documented model restrictions: number literals are integers (no fraction or
exponent part; such input is rejected rather than misread), and a `\uXXXX`
escape denoting a lone UTF-16 surrogate is rejected (a Lean `Char` cannot
carry it; such text never arises from `JSON.stringify` output over the
modelled values).  The parser's first argument is recursion fuel, a
termination device; the `jsonParse` wrapper supplies the input length plus
one, which every nesting level and list step keeps ample because each
consumes at least one character. -/

/-- JSON insignificant whitespace. -/
def isJsonWs (c : Char) : Bool :=
  c = ' ' || c = '\t' || c = '\n' || c = '\r'

/-- Skip insignificant whitespace. -/
def skipWs (cs : List Char) : List Char := cs.dropWhile isJsonWs

/-- Lowercase hexadecimal digit for a value below 16 (as emitted in
`\u00xx` escapes by `JSON.stringify`). -/
def hexLower (v : Nat) : Char :=
  if v < 10 then Char.ofNat (48 + v) else Char.ofNat (87 + v)

/-- The escape of one character inside a JSON string literal: quote and
backslash get backslash escapes, the five named control escapes are used
where they exist, other control characters become `\u00xx`, and everything
else stands for itself. -/
def escChar (c : Char) : List Char :=
  if c = '"' then ['\\', '"']
  else if c = '\\' then ['\\', '\\']
  else if c = '\n' then ['\\', 'n']
  else if c = '\r' then ['\\', 'r']
  else if c = '\t' then ['\\', 't']
  else if c.toNat = 8 then ['\\', 'b']
  else if c.toNat = 12 then ['\\', 'f']
  else if c.toNat < 0x20 then
    ['\\', 'u', '0', '0', hexLower (c.toNat / 16), hexLower (c.toNat % 16)]
  else [c]

/-- The escaped body of a JSON string literal. -/
def escString : List Char → List Char
  | [] => []
  | c :: rest => escChar c ++ escString rest

/-- Named single-character escapes accepted after a backslash. -/
def escName (e : Char) : Option Char :=
  if e = '"' then some '"'
  else if e = '\\' then some '\\'
  else if e = '/' then some '/'
  else if e = 'b' then some (Char.ofNat 8)
  else if e = 'f' then some (Char.ofNat 12)
  else if e = 'n' then some '\n'
  else if e = 'r' then some '\r'
  else if e = 't' then some '\t'
  else none

/-- Read four hex digits, returning their value and the remaining input. -/
def hex4 : List Char → Option (Nat × List Char)
  | h1 :: h2 :: h3 :: h4 :: rest =>
    match hexVal h1, hexVal h2, hexVal h3, hexVal h4 with
    | some v1, some v2, some v3, some v4 =>
      some (((v1 * 16 + v2) * 16 + v3) * 16 + v4, rest)
    | _, _, _, _ => none
  | _ => none

/-- Handle one escape sequence (input starts after the backslash); `k` is the
continuation parsing the remainder of the string body. -/
def strEscSeq (k : List Char → Option (List Char × List Char)) :
    List Char → Option (List Char × List Char)
  | [] => none
  | e :: rest2 =>
    if e = 'u' then
      match hex4 rest2 with
      | none => none
      | some (n, rest3) =>
        if n < 0xD800 ∨ 0xE000 ≤ n then
          (k rest3).map (fun p => (Char.ofNat n :: p.1, p.2))
        else if n < 0xDC00 then
          match rest3 with
          | q1 :: q2 :: rest4 =>
            if q1 = '\\' ∧ q2 = 'u' then
              match hex4 rest4 with
              | some (m, rest5) =>
                if 0xDC00 ≤ m ∧ m < 0xE000 then
                  (k rest5).map (fun p =>
                    (Char.ofNat (0x10000 + (n - 0xD800) * 0x400 + (m - 0xDC00)) ::
                      p.1, p.2))
                else none
              | none => none
            else none
          | _ => none
        else none
    else
      match escName e with
      | some ch => (k rest2).map (fun p => (ch :: p.1, p.2))
      | none => none

/-- Parse a JSON string literal body (after the opening quote) up to and
including the closing quote, handling the named escapes, `\uXXXX` escapes
and surrogate pairs, and rejecting raw control characters.  The first
argument is recursion fuel; one unit is spent per produced character, so
the input length plus one is always ample. -/
def parseStringBodyFuel : Nat → List Char → Option (List Char × List Char)
  | 0, _ => none
  | _, [] => none
  | fuel + 1, c :: rest =>
    if c = '"' then some ([], rest)
    else if c = '\\' then strEscSeq (parseStringBodyFuel fuel) rest
    else if c.toNat < 0x20 then none
    else (parseStringBodyFuel fuel rest).map (fun p => (c :: p.1, p.2))

/-- Parse a JSON string literal body (fuel instantiated generously). -/
def parseStringBody (cs : List Char) : Option (List Char × List Char) :=
  parseStringBodyFuel (cs.length + 1) cs

/-- Decimal digit test (on the character code: 48-57). -/
def isDigitChar (c : Char) : Bool := 48 ≤ c.toNat && c.toNat ≤ 57

/-- Value of a decimal digit character. -/
def digitVal (c : Char) : Nat := c.toNat - 48

/-- Value of a most-significant-first digit list. -/
def natFromDigits (ds : List Nat) : Nat := ds.foldl (fun acc d => acc * 10 + d) 0

/-- Decimal digits of `n`, most significant first; the first argument is
recursion fuel (`n` itself is ample). -/
def natReprAux : Nat → Nat → List Char
  | 0, _ => []
  | f + 1, n => if n = 0 then [] else natReprAux f (n / 10) ++ [Char.ofNat (48 + n % 10)]

/-- Canonical decimal representation of a natural number. -/
def natRepr (n : Nat) : List Char := if n = 0 then ['0'] else natReprAux n n

/-- Canonical decimal representation of an integer (the number-to-string
conversion performed by `JSON.stringify` on integral doubles). -/
def intRepr (n : Int) : List Char :=
  if n < 0 then '-' :: natRepr n.natAbs else natRepr n.natAbs

/-- Parse a JSON natural-number literal: a nonempty digit run without a
redundant leading zero. -/
def parseNat (cs : List Char) : Option (Nat × List Char) :=
  let digs := cs.takeWhile isDigitChar
  if digs = [] then none
  else if digs.head? = some '0' ∧ 1 < digs.length then none
  else some (natFromDigits (digs.map digitVal), cs.dropWhile isDigitChar)

/-- Parse a JSON number literal, restricted to integers (see the section
header): an optional minus sign and a digit run. -/
def parseNumber (cs : List Char) : Option (Int × List Char) :=
  match cs with
  | [] => none
  | c :: rest =>
    if c = '-' then (parseNat rest).map (fun p => (-(p.1 : Int), p.2))
    else (parseNat (c :: rest)).map (fun p => ((p.1 : Int), p.2))

/-- Match an expected literal run of characters, returning the rest. -/
def expectStr : List Char → List Char → Option (List Char)
  | [], cs => some cs
  | e :: es, c :: cs => if c = e then expectStr es cs else none
  | _ :: _, [] => none

mutual

/-- Parse one JSON value (after optional whitespace). -/
def parseVal : Nat → List Char → Option (JsValue × List Char)
  | 0, _ => none
  | fuel + 1, cs =>
    match skipWs cs with
    | [] => none
    | c :: rest =>
      if c = '"' then
        (parseStringBody rest).map (fun p => (JsValue.str (String.mk p.1), p.2))
      else if c = '[' then
        if (skipWs rest).head? = some ']' then some (JsValue.arr [], (skipWs rest).tail)
        else (parseItems fuel rest).map (fun p => (JsValue.arr p.1, p.2))
      else if c = '{' then
        if (skipWs rest).head? = some '}' then some (JsValue.obj [], (skipWs rest).tail)
        else
          (parseMembers fuel rest).map (fun p =>
            (JsValue.obj (p.1.foldl (fun acc kv => objSet acc kv.1 kv.2) []), p.2))
      else if c = 't' then
        (expectStr ['r', 'u', 'e'] rest).map (fun r => (JsValue.bool true, r))
      else if c = 'f' then
        (expectStr ['a', 'l', 's', 'e'] rest).map (fun r => (JsValue.bool false, r))
      else if c = 'n' then
        (expectStr ['u', 'l', 'l'] rest).map (fun r => (JsValue.null, r))
      else
        (parseNumber (c :: rest)).map (fun p => (JsValue.num p.1, p.2))

/-- Parse the elements of a nonempty JSON array, consuming the closing
bracket. -/
def parseItems : Nat → List Char → Option (List JsValue × List Char)
  | 0, _ => none
  | fuel + 1, cs =>
    match parseVal fuel cs with
    | some (v, r) =>
      match skipWs r with
      | d :: r2 =>
        if d = ',' then (parseItems fuel r2).map (fun p => (v :: p.1, p.2))
        else if d = ']' then some ([v], r2)
        else none
      | [] => none
    | none => none

/-- Parse the members of a nonempty JSON object, consuming the closing
brace. -/
def parseMembers : Nat → List Char → Option (List (String × JsValue) × List Char)
  | 0, _ => none
  | fuel + 1, cs =>
    match skipWs cs with
    | q :: r =>
      if q = '"' then
        match parseStringBody r with
        | some (k, r1) =>
          match skipWs r1 with
          | c1 :: r2 =>
            if c1 = ':' then
              match parseVal fuel r2 with
              | some (v, r3) =>
                match skipWs r3 with
                | d :: r4 =>
                  if d = ',' then
                    (parseMembers fuel r4).map (fun p =>
                      ((String.mk k, v) :: p.1, p.2))
                  else if d = '}' then some ([(String.mk k, v)], r4)
                  else none
                | [] => none
              | none => none
            else none
          | [] => none
        | none => none
      else none
    | [] => none

end

/-- `JSON.parse`: parse one value and insist nothing but whitespace
follows.  Duplicate object keys are resolved by the `objSet` fold in
`parseVal` exactly as JavaScript resolves them (first position, last
value). -/
def jsonParse (s : String) : Option JsValue :=
  match parseVal (s.data.length + 1) s.data with
  | some (v, r) => if skipWs r = [] then some v else none
  | none => none

mutual

/-- `JSON.stringify(v)` (compact form). -/
def stringifyVal : JsValue → List Char
  | .null => 'n' :: ['u', 'l', 'l']
  | .bool true => 't' :: ['r', 'u', 'e']
  | .bool false => 'f' :: ['a', 'l', 's', 'e']
  | .num n => intRepr n
  | .str s => '"' :: escString s.data ++ ['"']
  | .arr l => '[' :: stringifyArr l ++ [']']
  | .obj ms => '{' :: stringifyMembers ms ++ ['}']

/-- Comma-separated compact elements. -/
def stringifyArr : List JsValue → List Char
  | [] => []
  | [v] => stringifyVal v
  | v :: rest => stringifyVal v ++ ',' :: stringifyArr rest

/-- Comma-separated compact `"key":value` members. -/
def stringifyMembers : List (String × JsValue) → List Char
  | [] => []
  | [(k, v)] => '"' :: escString k.data ++ '"' :: ':' :: stringifyVal v
  | (k, v) :: rest =>
    '"' :: escString k.data ++ '"' :: ':' :: stringifyVal v ++ ',' :: stringifyMembers rest

end

mutual

/-- `JSON.stringify(v, null, 2)`: the two-space pretty form.  `ind` is the
current indentation width. -/
def prettyVal (ind : Nat) : JsValue → List Char
  | .null => 'n' :: ['u', 'l', 'l']
  | .bool true => 't' :: ['r', 'u', 'e']
  | .bool false => 'f' :: ['a', 'l', 's', 'e']
  | .num n => intRepr n
  | .str s => '"' :: escString s.data ++ ['"']
  | .arr [] => ['[', ']']
  | .arr (v :: rest) =>
    '[' :: '\n' :: prettyArr (ind + 2) (v :: rest) ++
      '\n' :: (List.replicate ind ' ' ++ [']'])
  | .obj [] => ['{', '}']
  | .obj (m :: rest) =>
    '{' :: '\n' :: prettyMembers (ind + 2) (m :: rest) ++
      '\n' :: (List.replicate ind ' ' ++ ['}'])

/-- Pretty elements, one per line at indentation `ind`. -/
def prettyArr (ind : Nat) : List JsValue → List Char
  | [] => []
  | [v] => List.replicate ind ' ' ++ prettyVal ind v
  | v :: rest =>
    List.replicate ind ' ' ++ prettyVal ind v ++ ',' :: '\n' :: prettyArr ind rest

/-- Pretty `"key": value` members, one per line at indentation `ind`. -/
def prettyMembers (ind : Nat) : List (String × JsValue) → List Char
  | [] => []
  | [(k, v)] =>
    List.replicate ind ' ' ++ '"' :: escString k.data ++ '"' :: ':' :: ' ' ::
      prettyVal ind v
  | (k, v) :: rest =>
    List.replicate ind ' ' ++ '"' :: escString k.data ++ '"' :: ':' :: ' ' ::
      prettyVal ind v ++ ',' :: '\n' :: prettyMembers ind rest

end

mutual

/-- Structural size of a JSON value (numbers and strings count 1): the
recursion-fuel measure of the parser. -/
def jsizeV : JsValue → Nat
  | .null | .bool _ | .num _ | .str _ => 1
  | .arr l => 1 + jsizeL l
  | .obj ms => 1 + jsizeM ms

/-- Size of an element list. -/
def jsizeL : List JsValue → Nat
  | [] => 0
  | v :: rest => 1 + jsizeV v + jsizeL rest

/-- Size of a member list. -/
def jsizeM : List (String × JsValue) → Nat
  | [] => 0
  | m :: rest => 1 + jsizeV m.2 + jsizeM rest

end

mutual

/-- Well-formedness of a value as produced by `JSON.parse`: object keys
are pairwise distinct at every level. -/
def wfV : JsValue → Bool
  | .null => true
  | .bool _ => true
  | .num _ => true
  | .str _ => true
  | .arr l => wfL l
  | .obj ms => nodupKeysG ms && wfM ms

/-- Well-formedness of the elements. -/
def wfL : List JsValue → Bool
  | [] => true
  | v :: rest => wfV v && wfL rest

/-- Well-formedness of the member values. -/
def wfM : List (String × JsValue) → Bool
  | [] => true
  | m :: rest => wfV m.2 && wfM rest

end

/-- `function formatJSON(jsonString)`:
`JSON.stringify(JSON.parse(jsonString), null, 2)`, or the error
`Invalid JSON`. -/
def formatJSON (jsonString : String) : Except String String :=
  match jsonParse jsonString with
  | some v => Except.ok (String.mk (prettyVal 0 v))
  | none => Except.error "Invalid JSON"

/-- `function minifyJSON(jsonString)`:
`JSON.stringify(JSON.parse(jsonString))`, or the error `Invalid JSON`. -/
def minifyJSON (jsonString : String) : Except String String :=
  match jsonParse jsonString with
  | some v => Except.ok (String.mk (stringifyVal v))
  | none => Except.error "Invalid JSON"

/-! ## `jwtDecode` -/

/-- The try-block of `function jwtDecode(token)`: split on dots, throw
`Invalid JWT format` unless there are exactly 3 parts, then JSON-parse the
base64-decoded first two parts (a `JSON.parse` failure throws a
`SyntaxError`, whose message is irrelevant because the catch replaces
it). -/
def jwtDecodeBody (token : String) : Except String (JsValue × JsValue) :=
  let parts := splitOnChar '.' token.data
  if parts.length ≠ 3 then Except.error "Invalid JWT format"
  else
    match jsonParse (String.mk (utf8DecodeReplace (b64DecodeRaw (parts.getD 0 [])))),
        jsonParse (String.mk (utf8DecodeReplace (b64DecodeRaw (parts.getD 1 [])))) with
    | some h, some p => Except.ok (h, p)
    | _, _ => Except.error "SyntaxError"

/-- `function jwtDecode(token)`: the catch-all replaces every failure of
the body - including the 3-part format check's own throw - with
`Invalid JWT token`. -/
def jwtDecode (token : String) : Except String (JsValue × JsValue) :=
  match jwtDecodeBody token with
  | Except.ok r => Except.ok r
  | Except.error _ => Except.error "Invalid JWT token"


/-! ## The request router (POST side)

The dispatch switch is modelled down to its guards: each case checks its
required fields by JavaScript truthiness and throws `<Field> is required`
on failure; the default case throws `Endpoint not found`; every throw is
caught and answered as 400 with an `error` body.  When a guard passes, the
named transform runs; its own success (200) or thrown error (400 with the
transform's message) depends on the transform and is modelled by the
transform functions themselves, so the response function below returns
`none` for that region - the claims under study concern only the error
paths decided before a transform runs. -/

/-- Truthiness of the field `f` of the parsed body. -/
def fieldTruthy (payload : List (String × JsValue)) (f : String) : Bool :=
  jsTruthyOpt (List.lookup f payload)

/-- Outcome of the dispatch switch before any transform result: either a
thrown message (validation failure or unknown endpoint), or the invocation
of the named transform. -/
inductive DispatchOutcome : Type where
  | errorMsg (msg : String)
  | transformed (tool : String)
  deriving Repr, DecidableEq

/-- The dispatch switch of the request handler (`switch (trimmedPath)`),
transliterated case by case: the guards and messages are those of the
source; the transform invocation is recorded by name. -/
def apiDispatch (path : String) (payload : List (String × JsValue)) :
    DispatchOutcome :=
  match path with
  | "api/base64/encode" =>
    if !fieldTruthy payload "text" then .errorMsg "Text is required"
    else .transformed "base64Encode"
  | "api/base64/decode" =>
    if !fieldTruthy payload "encoded" then .errorMsg "Encoded string is required"
    else .transformed "base64Decode"
  | "api/convert/xml-to-json" =>
    if !fieldTruthy payload "xml" then .errorMsg "XML is required"
    else .transformed "xmlToJson"
  | "api/convert/json-to-xml" =>
    if !fieldTruthy payload "json" then .errorMsg "JSON is required"
    else .transformed "jsonToXml"
  | "api/convert/csv-to-json" =>
    if !fieldTruthy payload "csv" then .errorMsg "CSV is required"
    else .transformed "csvToJson"
  | "api/convert/csv-to-xml" =>
    if !fieldTruthy payload "csv" then .errorMsg "CSV is required"
    else .transformed "csvToXml"
  | "api/convert/url-encode" =>
    if !fieldTruthy payload "text" then .errorMsg "Text is required"
    else .transformed "urlEncode"
  | "api/convert/url-decode" =>
    if !fieldTruthy payload "encoded" then .errorMsg "Encoded string is required"
    else .transformed "urlDecode"
  | "api/convert/timestamp" =>
    if !fieldTruthy payload "timestamp" then .errorMsg "Timestamp is required"
    else .transformed "unixTimestampConverter"
  | "api/format/json" =>
    if !fieldTruthy payload "json" then .errorMsg "JSON is required"
    else .transformed "formatJSON"
  | "api/format/json-minify" =>
    if !fieldTruthy payload "json" then .errorMsg "JSON is required"
    else .transformed "minifyJSON"
  | "api/format/xml-minify" =>
    if !fieldTruthy payload "xml" then .errorMsg "XML is required"
    else .transformed "minifyXML"
  | "api/generate/password" => .transformed "generatePassword"
  | "api/generate/hash" =>
    if !fieldTruthy payload "text" || !fieldTruthy payload "algorithm" then
      .errorMsg "Text and algorithm are required"
    else .transformed "calculateHash"
  | "api/generate/uuid" => .transformed "generateUUID"
  | "api/generate/random" => .transformed "generateRandomString"
  | "api/decode/jwt" =>
    if !fieldTruthy payload "token" then .errorMsg "JWT token is required"
    else .transformed "jwtDecode"
  | "api/compare/text" =>
    if !fieldTruthy payload "text1" || !fieldTruthy payload "text2" then
      .errorMsg "Both texts are required"
    else .transformed "findDifferences"
  | "api/tools/html-escape" =>
    if !fieldTruthy payload "text" then .errorMsg "Text is required"
    else .transformed "htmlEscape"
  | "api/tools/html-unescape" =>
    if !fieldTruthy payload "text" then .errorMsg "Text is required"
    else .transformed "htmlUnescape"
  | "api/tools/string-length" =>
    if !fieldTruthy payload "text" then .errorMsg "Text is required"
    else .transformed "stringLength"
  | "api/tools/convert-case" =>
    if !fieldTruthy payload "text" || !fieldTruthy payload "caseType" then
      .errorMsg "Text and case type are required"
    else .transformed "caseConverter"
  | "api/tools/format-sql" =>
    if !fieldTruthy payload "sql" then .errorMsg "SQL is required"
    else .transformed "sqlFormatter"
  | "api/tools/validate-credit-card" =>
    if !fieldTruthy payload "number" then .errorMsg "Credit card number is required"
    else .transformed "creditCardValidator"
  | "api/tools/validate-ip" =>
    if !fieldTruthy payload "ip" then .errorMsg "IP address is required"
    else .transformed "ipAddressValidator"
  | "api/tools/validate-mac" =>
    if !fieldTruthy payload "mac" then .errorMsg "MAC address is required"
    else .transformed "macAddressValidator"
  | "api/tools/lorem-ipsum" => .transformed "loremIpsumGenerator"
  | "api/tools/checksum" =>
    if !fieldTruthy payload "text" || !fieldTruthy payload "algorithm" then
      .errorMsg "Text and algorithm are required"
    else .transformed "checksumCalculator"
  | "api/tools/qr-code" =>
    if !fieldTruthy payload "text" then .errorMsg "Text is required"
    else .transformed "qrCodeGenerator"
  | _ => .errorMsg "Endpoint not found"

/-- The paths handled by a case of the dispatch switch. -/
def switchPaths : List String :=
  ["api/base64/encode", "api/base64/decode", "api/convert/xml-to-json",
    "api/convert/json-to-xml", "api/convert/csv-to-json", "api/convert/csv-to-xml",
    "api/convert/url-encode", "api/convert/url-decode", "api/convert/timestamp",
    "api/format/json", "api/format/json-minify", "api/format/xml-minify",
    "api/generate/password", "api/generate/hash", "api/generate/uuid",
    "api/generate/random", "api/decode/jwt", "api/compare/text",
    "api/tools/html-escape", "api/tools/html-unescape", "api/tools/string-length",
    "api/tools/convert-case", "api/tools/format-sql", "api/tools/validate-credit-card",
    "api/tools/validate-ip", "api/tools/validate-mac", "api/tools/lorem-ipsum",
    "api/tools/checksum", "api/tools/qr-code"]

/-- The required fields of each validating switch case, with the message
thrown when the guard fails.  Cases without required fields (password,
uuid, random, lorem-ipsum) and unknown paths are `none`. -/
def pathRequired : String → Option (List String × String) := fun path =>
  match path with
  | "api/base64/encode" => some (["text"], "Text is required")
  | "api/base64/decode" => some (["encoded"], "Encoded string is required")
  | "api/convert/xml-to-json" => some (["xml"], "XML is required")
  | "api/convert/json-to-xml" => some (["json"], "JSON is required")
  | "api/convert/csv-to-json" => some (["csv"], "CSV is required")
  | "api/convert/csv-to-xml" => some (["csv"], "CSV is required")
  | "api/convert/url-encode" => some (["text"], "Text is required")
  | "api/convert/url-decode" => some (["encoded"], "Encoded string is required")
  | "api/convert/timestamp" => some (["timestamp"], "Timestamp is required")
  | "api/format/json" => some (["json"], "JSON is required")
  | "api/format/json-minify" => some (["json"], "JSON is required")
  | "api/format/xml-minify" => some (["xml"], "XML is required")
  | "api/generate/hash" => some (["text", "algorithm"], "Text and algorithm are required")
  | "api/decode/jwt" => some (["token"], "JWT token is required")
  | "api/compare/text" => some (["text1", "text2"], "Both texts are required")
  | "api/tools/html-escape" => some (["text"], "Text is required")
  | "api/tools/html-unescape" => some (["text"], "Text is required")
  | "api/tools/string-length" => some (["text"], "Text is required")
  | "api/tools/convert-case" => some (["text", "caseType"], "Text and case type are required")
  | "api/tools/format-sql" => some (["sql"], "SQL is required")
  | "api/tools/validate-credit-card" => some (["number"], "Credit card number is required")
  | "api/tools/validate-ip" => some (["ip"], "IP address is required")
  | "api/tools/validate-mac" => some (["mac"], "MAC address is required")
  | "api/tools/checksum" => some (["text", "algorithm"], "Text and algorithm are required")
  | "api/tools/qr-code" => some (["text"], "Text is required")
  | _ => none

/-- A 400-style error body. -/
def errBody (msg : String) : JsValue := JsValue.obj [("error", JsValue.str msg)]

/-- Response of the generic `POST api/...` handler, as far as it is
decided before a transform runs: a body that failed to parse as JSON is
answered 400 `Invalid JSON payload`; a throw inside the switch (guard
failure or unknown endpoint) is answered 400 with the thrown message; a
passed guard hands over to the transform (`none`: the response is then the
transform's 200 result or its own 400 error, modelled per transform). -/
def apiPostResponse (path : String) (body : Option (List (String × JsValue))) :
    Option (Nat × JsValue) :=
  match body with
  | none => some (400, errBody "Invalid JSON payload")
  | some payload =>
    match apiDispatch path payload with
    | .errorMsg m => some (400, errBody m)
    | .transformed _ => none

/-- `trimmedPath.startsWith('api/')`, decided on the character list. -/
def startsWithApi (s : String) : Bool :=
  match s.data with
  | 'a' :: 'p' :: 'i' :: '/' :: _ => true
  | _ => false

/-- `path.replace(/^\/+|\/+$/g, '')`: strip leading and trailing
slashes. -/
def trimSlashes (s : String) : String :=
  String.mk (((s.data.dropWhile (fun c => c = '/')).reverse.dropWhile
    (fun c => c = '/')).reverse)

/-- Routing of a POST request: the health endpoint answers any method (its
body depends on the clock and the store, hence `none` here); the
visitor-track endpoint is modelled separately by `trackVisitorEndpoint`
(it needs the store state); any other `api/` path goes to the generic
dispatch; everything else is 404 `Not found`.  (`GET api/visitors/stats`
is skipped for POST, so a POST to it falls through to the generic
dispatch, like the source.) -/
def serverPostResponse (rawPath : String)
    (body : Option (List (String × JsValue))) : Option (Nat × JsValue) :=
  let p := trimSlashes rawPath
  if p = "api/health" then none
  else if p = "api/visitors/track" then none
  else if startsWithApi p then apiPostResponse p body
  else some (404, errBody "Not found")

/-! ## The visitor-track endpoint -/

mutual

/-- JavaScript string conversion of an array element (`Array.prototype.join`
semantics): null becomes the empty string. -/
def jsValueElemStr : JsValue → String
  | .null => ""
  | .bool b => if b then "true" else "false"
  | .num n => String.mk (intRepr n)
  | .str s => s
  | .arr l => jsValueArrStr l
  | .obj _ => "[object Object]"

/-- `Array.prototype.toString`: elements joined by commas. -/
def jsValueArrStr : List JsValue → String
  | [] => ""
  | [v] => jsValueElemStr v
  | v :: rest => jsValueElemStr v ++ "," ++ jsValueArrStr rest

end

/-- `String(v)`: the property key a value becomes when used as
`data[type]`. -/
def jsPropKey : JsValue → String
  | .null => "null"
  | .bool b => if b then "true" else "false"
  | .num n => String.mk (intRepr n)
  | .str s => s
  | .arr l => jsValueArrStr l
  | .obj _ => "[object Object]"

/-- `const type = payload.type || 'web'` followed by use as a property
key: an absent or falsy `type` field defaults to `web`. -/
def trackTypeOf (payload : List (String × JsValue)) : String :=
  match List.lookup "type" payload with
  | none => "web"
  | some v => if jsFalsy v then "web" else jsPropKey v

/-- The stored visitor record as the JSON value returned to the caller
(`JSON.stringify` turns a NaN counter into `null`). -/
def statsToJs (d : VisitorData) : JsValue :=
  JsValue.obj (d.map (fun kv =>
    (kv.1, match kv.2 with
      | .int n => JsValue.num n
      | .str s => JsValue.str s
      | .nanv => JsValue.null)))

/-- `POST api/visitors/track`: a malformed JSON body is answered 400
`Invalid JSON` without touching the store; otherwise `trackVisitor` runs
with the (defaulted) type and the updated stats are returned with 200.
The pair is (response, new store state). -/
def trackVisitorEndpoint (body : Option (List (String × JsValue))) (now : String)
    (store : Option VisitorData) : (Nat × JsValue) × Option VisitorData :=
  match body with
  | none => ((400, errBody "Invalid JSON"), store)
  | some payload =>
    let stats := trackVisitor (trackTypeOf payload) now store
    ((200, JsValue.obj [("success", JsValue.bool true), ("stats", statsToJs stats)]),
      some stats)

/-- `n` sequential track calls with an empty JSON body (no `type`
supplied), threading the store; `nows` supplies each call's clock
reading. -/
def runTrackN : Nat → (Nat → String) → Option VisitorData → Option VisitorData
  | 0, _, store => store
  | n + 1, nows, store =>
    runTrackN n nows (trackVisitorEndpoint (some []) (nows n) store).2


/-! ## Theorems -/

theorem toNat_ofNat_valid (n : Nat) (h : n.isValidChar) :
    (Char.ofNat n).toNat = n := by
  simp only [Char.ofNat, dif_pos h, Char.ofNatAux, Char.toNat]
  rfl

theorem ofNat_eq_of_toNat (c : Char) (n : Nat) (h : c.toNat = n) :
    Char.ofNat n = c := by
  subst h
  exact Char.ofNat_toNat c

/-- The scalar-value bounds carried by a `Char`, in `Nat` form. -/
theorem char_toNat_valid (c : Char) :
    c.toNat < 0xD800 ∨ (0xDFFF < c.toNat ∧ c.toNat < 0x110000) := c.valid

/-- Decoding resumes after the UTF-8 encoding of one character: the core
step of the UTF-8 round trip. -/
theorem utf8DecodeReplace_encodeChar (c : Char) (bs : List Nat) :
    utf8DecodeReplace (utf8EncodeChar c ++ bs) = c :: utf8DecodeReplace bs := by
  have hv := char_toNat_valid c
  set n := c.toNat with hn
  unfold utf8EncodeChar
  rw [← hn]
  by_cases h1 : n < 0x80
  · simp only [if_pos h1, List.cons_append, List.nil_append]
    rw [utf8DecodeReplace.eq_def]
    dsimp only
    rw [if_pos h1, ofNat_eq_of_toNat c n hn.symm]
  by_cases h2 : n < 0x800
  · simp only [if_neg h1, if_pos h2, List.cons_append, List.nil_append]
    rw [utf8DecodeReplace.eq_def]
    dsimp only
    rw [if_neg (by omega), if_neg (by omega), if_pos (by omega),
      if_pos (by omega : 0x80 ≤ 0x80 + n % 0x40 ∧ 0x80 + n % 0x40 < 0xC0),
      ofNat_eq_of_toNat c _ (by omega)]
  by_cases h3 : n < 0x10000
  · simp only [if_neg h1, if_neg h2, if_pos h3, List.cons_append, List.nil_append]
    rw [utf8DecodeReplace.eq_def]
    dsimp only
    have hb : ¬ (0xE0 + n / 0x1000 < 0x80) := by omega
    have hb2 : ¬ (0xE0 + n / 0x1000 < 0xC2) := by omega
    have hb3 : ¬ (0xE0 + n / 0x1000 < 0xE0) := by omega
    have hb4 : 0xE0 + n / 0x1000 < 0xF0 := by omega
    rw [if_neg hb, if_neg hb2, if_neg hb3, if_pos hb4]
    have hcont :
        (if 0xE0 + n / 0x1000 = 0xE0 then 0xA0 else 0x80) ≤ 0x80 + n / 0x40 % 0x40 ∧
          0x80 + n / 0x40 % 0x40 <
            (if 0xE0 + n / 0x1000 = 0xED then 0xA0 else 0xC0) := by
      constructor
      · split
        · omega
        · omega
      · split
        · omega
        · omega
    rw [if_pos hcont,
      if_pos (by omega : 0x80 ≤ 0x80 + n % 0x40 ∧ 0x80 + n % 0x40 < 0xC0),
      ofNat_eq_of_toNat c _ (by omega)]
  · simp only [if_neg h1, if_neg h2, if_neg h3, List.cons_append, List.nil_append]
    rw [utf8DecodeReplace.eq_def]
    dsimp only
    have hb : ¬ (0xF0 + n / 0x40000 < 0x80) := by omega
    have hb2 : ¬ (0xF0 + n / 0x40000 < 0xC2) := by omega
    have hb3 : ¬ (0xF0 + n / 0x40000 < 0xE0) := by omega
    have hb4 : ¬ (0xF0 + n / 0x40000 < 0xF0) := by omega
    have hb5 : 0xF0 + n / 0x40000 < 0xF5 := by omega
    rw [if_neg hb, if_neg hb2, if_neg hb3, if_neg hb4, if_pos hb5]
    have hcont :
        (if 0xF0 + n / 0x40000 = 0xF0 then 0x90 else 0x80) ≤ 0x80 + n / 0x1000 % 0x40 ∧
          0x80 + n / 0x1000 % 0x40 <
            (if 0xF0 + n / 0x40000 = 0xF4 then 0x90 else 0xC0) := by
      constructor
      · split
        · omega
        · omega
      · split
        · omega
        · omega
    rw [if_pos hcont,
      if_pos (by omega : 0x80 ≤ 0x80 + n / 0x40 % 0x40 ∧ 0x80 + n / 0x40 % 0x40 < 0xC0),
      if_pos (by omega : 0x80 ≤ 0x80 + n % 0x40 ∧ 0x80 + n % 0x40 < 0xC0),
      ofNat_eq_of_toNat c _ (by omega)]

/-- UTF-8 round trip: decoding the encoding of any well-formed string
returns the string. -/
theorem utf8DecodeReplace_utf8Encode (s : List Char) :
    utf8DecodeReplace (utf8Encode s) = s := by
  induction s with
  | nil => rfl
  | cons c rest ih =>
    rw [utf8Encode, utf8DecodeReplace_encodeChar, ih]

/-- Every byte produced by the UTF-8 encoder is a byte value. -/
theorem utf8EncodeChar_lt_256 (c : Char) : ∀ b ∈ utf8EncodeChar c, b < 256 := by
  have hv := char_toNat_valid c
  intro b hb
  simp only [utf8EncodeChar, List.mem_cons, List.not_mem_nil, or_false] at hb
  split at hb <;> [skip; split at hb] <;> [skip; skip; split at hb] <;>
    simp only [List.mem_cons, List.not_mem_nil, or_false] at hb <;> omega


theorem b64CharVal_b64Char : ∀ v : Fin 64, b64CharVal (b64Char v.val) = some v.val := by
  decide

theorem b64CharVal_of_lt (v : Nat) (h : v < 64) : b64CharVal (b64Char v) = some v :=
  b64CharVal_b64Char ⟨v, h⟩

theorem b64CharVal_pad : b64CharVal '=' = none := by decide

/-- Byte-level base64 round trip: decoding the canonical encoding of any
byte list returns the bytes. -/
theorem b64DecodeRaw_b64EncodeBytes (bs : List Nat) (h : ∀ b ∈ bs, b < 256) :
    b64DecodeRaw (b64EncodeBytes bs) = bs := by
  unfold b64DecodeRaw
  induction bs using b64EncodeBytes.induct with
  | case1 => rfl
  | case2 b1 =>
    have h1 : b1 < 256 := h b1 (by simp)
    rw [b64EncodeBytes,
      List.filterMap_cons_some (b64CharVal_of_lt _ (by omega)),
      List.filterMap_cons_some (b64CharVal_of_lt _ (by omega)),
      List.filterMap_cons_none b64CharVal_pad,
      List.filterMap_cons_none b64CharVal_pad,
      List.filterMap_nil, b64SextetsToBytes]
    simp only [List.cons.injEq, and_true]
    omega
  | case3 b1 b2 =>
    have h1 : b1 < 256 := h b1 (by simp)
    have h2 : b2 < 256 := h b2 (by simp)
    rw [b64EncodeBytes,
      List.filterMap_cons_some (b64CharVal_of_lt _ (by omega)),
      List.filterMap_cons_some (b64CharVal_of_lt _ (by omega)),
      List.filterMap_cons_some (b64CharVal_of_lt _ (by omega)),
      List.filterMap_cons_none b64CharVal_pad,
      List.filterMap_nil, b64SextetsToBytes]
    simp only [List.cons.injEq, and_true]
    omega
  | case4 b1 b2 b3 rest ih =>
    have h1 : b1 < 256 := h b1 (by simp)
    have h2 : b2 < 256 := h b2 (by simp)
    have h3 : b3 < 256 := h b3 (by simp)
    have hrest : ∀ b ∈ rest, b < 256 := fun b hb => h b (by simp [hb])
    rw [b64EncodeBytes,
      List.filterMap_cons_some (b64CharVal_of_lt _ (by omega)),
      List.filterMap_cons_some (b64CharVal_of_lt _ (by omega)),
      List.filterMap_cons_some (b64CharVal_of_lt _ (by omega)),
      List.filterMap_cons_some (b64CharVal_of_lt _ (by omega)),
      b64SextetsToBytes, ih hrest]
    simp only [List.cons_append, List.nil_append, List.cons.injEq, eq_self_iff_true,
      and_true]
    exact ⟨by omega, by omega, by omega⟩

/-- Every byte of an encoded string is a byte value. -/
theorem utf8Encode_lt_256 (s : List Char) : ∀ b ∈ utf8Encode s, b < 256 := by
  induction s with
  | nil => simp [utf8Encode]
  | cons c rest ih =>
    intro b hb
    rw [utf8Encode, List.mem_append] at hb
    rcases hb with hb | hb
    · exact utf8EncodeChar_lt_256 c b hb
    · exact ih b hb


theorem hexVal_hexUpper : ∀ v : Fin 16, hexVal (hexUpper v.val) = some v.val := by
  decide

theorem hexVal_hexUpper_of_lt (v : Nat) (h : v < 16) : hexVal (hexUpper v) = some v :=
  hexVal_hexUpper ⟨v, h⟩

theorem parseHexPair_hexUpper (b : Nat) (h : b < 256) :
    parseHexPair (hexUpper (b / 16)) (hexUpper (b % 16)) = some b := by
  unfold parseHexPair
  rw [hexVal_hexUpper_of_lt _ (by omega), hexVal_hexUpper_of_lt _ (by omega)]
  exact congrArg some (by omega)

theorem contByteEsc_cons (h l : Char) (rest : List Char) (b : Nat)
    (hb : parseHexPair h l = some b) (hr : 0x80 ≤ b ∧ b < 0xC0) :
    contByteEsc ('%' :: h :: l :: rest) = some (b, rest) := by
  rw [contByteEsc, if_pos rfl, hb]
  dsimp only
  rw [if_pos hr]

theorem isUriUnreserved_ne_percent (c : Char) (h : isUriUnreserved c = true) :
    ¬ c = '%' := by
  intro he
  subst he
  exact absurd h (by decide)

/-- Decoding resumes after the `encodeURIComponent` image of one character:
the core step of the URL round trip. -/
theorem decodeURIComponentFuel_encodeChar (c : Char) (cs : List Char) (fuel : Nat) :
    decodeURIComponentFuel (fuel + 1)
        ((if isUriUnreserved c then [c] else percentBytes (utf8EncodeChar c)) ++ cs) =
      (decodeURIComponentFuel fuel cs).map (c :: ·) := by
  by_cases hu : isUriUnreserved c
  · rw [if_pos hu, List.singleton_append, decodeURIComponentFuel,
      if_neg (isUriUnreserved_ne_percent c hu)]
  · rw [if_neg hu]
    have hv := char_toNat_valid c
    set n := c.toNat with hn
    unfold utf8EncodeChar
    rw [← hn]
    by_cases h1 : n < 0x80
    · rw [if_pos h1, percentBytes, percentBytes]
      simp only [List.cons_append, List.nil_append]
      rw [decodeURIComponentFuel, if_pos rfl, decodeEscSeq,
        parseHexPair_hexUpper _ (by omega)]
      dsimp only
      rw [if_pos (by omega), ofNat_eq_of_toNat c _ (by omega)]
    by_cases h2 : n < 0x800
    · rw [if_neg h1, if_pos h2, percentBytes, percentBytes, percentBytes]
      simp only [List.cons_append, List.nil_append]
      rw [decodeURIComponentFuel, if_pos rfl, decodeEscSeq,
        parseHexPair_hexUpper _ (by omega)]
      dsimp only
      rw [if_neg (by omega), if_neg (by omega)]
      rw [if_pos (by omega),
        contByteEsc_cons _ _ _ _ (parseHexPair_hexUpper _ (by omega)) (by omega)]
      dsimp only
      rw [if_pos (by omega), ofNat_eq_of_toNat c _ (by omega)]
    by_cases h3 : n < 0x10000
    · rw [if_neg h1, if_neg h2, if_pos h3, percentBytes, percentBytes, percentBytes,
        percentBytes]
      simp only [List.cons_append, List.nil_append]
      rw [decodeURIComponentFuel, if_pos rfl, decodeEscSeq,
        parseHexPair_hexUpper _ (by omega)]
      dsimp only
      rw [if_neg (by omega), if_neg (by omega)]
      rw [if_neg (by omega), if_pos (by omega),
        contByteEsc_cons _ _ _ _ (parseHexPair_hexUpper _ (by omega)) (by omega)]
      dsimp only
      rw [contByteEsc_cons _ _ _ _ (parseHexPair_hexUpper _ (by omega)) (by omega)]
      dsimp only
      rw [if_pos (by omega), ofNat_eq_of_toNat c _ (by omega)]
    · rw [if_neg h1, if_neg h2, if_neg h3, percentBytes, percentBytes, percentBytes,
        percentBytes, percentBytes]
      simp only [List.cons_append, List.nil_append]
      rw [decodeURIComponentFuel, if_pos rfl, decodeEscSeq,
        parseHexPair_hexUpper _ (by omega)]
      dsimp only
      rw [if_neg (by omega), if_neg (by omega)]
      rw [if_neg (by omega), if_neg (by omega),
        if_pos (by omega),
        contByteEsc_cons _ _ _ _ (parseHexPair_hexUpper _ (by omega)) (by omega)]
      dsimp only
      rw [contByteEsc_cons _ _ _ _ (parseHexPair_hexUpper _ (by omega)) (by omega)]
      dsimp only
      rw [contByteEsc_cons _ _ _ _ (parseHexPair_hexUpper _ (by omega)) (by omega)]
      dsimp only
      rw [if_pos (by omega), ofNat_eq_of_toNat c _ (by omega)]

/-- URL round trip at the character-list level, for any sufficient fuel. -/
theorem decodeURIComponentFuel_encode (s : List Char) :
    ∀ fuel, s.length ≤ fuel →
      decodeURIComponentFuel fuel (encodeURIComponent s) = some s := by
  induction s with
  | nil => intro fuel _; cases fuel <;> rfl
  | cons c rest ih =>
    intro fuel hf
    match fuel, hf with
    | f + 1, hf =>
      rw [encodeURIComponent, decodeURIComponentFuel_encodeChar,
        ih f (by simp only [List.length_cons] at hf; omega)]
      rfl

/-- Every character of the input survives into its encoding. -/
theorem length_le_encodeURIComponent (s : List Char) :
    s.length ≤ (encodeURIComponent s).length := by
  induction s with
  | nil => simp [encodeURIComponent]
  | cons c rest ih =>
    rw [encodeURIComponent, List.length_append, List.length_cons]
    have h1 : 1 ≤ (if isUriUnreserved c then [c] else
        percentBytes (utf8EncodeChar c)).length := by
      split
      · simp
      · unfold utf8EncodeChar
        dsimp only
        split_ifs <;> simp [percentBytes]
    omega

/-- URL round trip at the character-list level. -/
theorem decodeURIComponent_encodeURIComponent (s : List Char) :
    decodeURIComponent (encodeURIComponent s) = some s :=
  decodeURIComponentFuel_encode s _ (length_le_encodeURIComponent s)

/-! ### Router lemmas -/

set_option maxHeartbeats 3000000

/-- Whenever a required field of a validating endpoint is not truthy, the
dispatch switch throws that endpoint's required-field message. -/
theorem apiDispatch_guard_fails (path : String) (payload : List (String × JsValue))
    (fields : List String) (msg f : String)
    (hp : pathRequired path = some (fields, msg)) (hf : f ∈ fields)
    (ht : fieldTruthy payload f = false) :
    apiDispatch path payload = .errorMsg msg := by
  unfold pathRequired at hp
  split at hp <;>
    first
      | exact Option.noConfusion hp
      | (simp only [Option.some.injEq, Prod.mk.injEq] at hp
         obtain ⟨hfld, hmsg⟩ := hp
         subst hfld
         subst hmsg
         simp only [List.mem_cons, List.not_mem_nil, or_false] at hf
         rcases hf with rfl | rfl <;> simp [apiDispatch, ht])

/-- A path handled by no case of the switch reaches the default case,
which throws `Endpoint not found` whatever the payload. -/
theorem apiDispatch_unknown (path : String) (payload : List (String × JsValue))
    (h : path ∉ switchPaths) :
    apiDispatch path payload = .errorMsg "Endpoint not found" := by
  rw [apiDispatch.eq_def]
  split <;>
    first
      | rfl
      | (exact absurd (by simp [switchPaths]) h)

/-! ### Association-list and visitor-counter lemmas -/

theorem lookup_objSet_self {α : Type} (l : List (String × α)) (k : String) (v : α) :
    List.lookup k (objSet l k v) = some v := by
  induction l with
  | nil => simp [objSet, List.lookup]
  | cons p rest ih =>
    obtain ⟨k'', v''⟩ := p
    rw [objSet]
    by_cases h : k'' = k
    · rw [if_pos h]
      simp [List.lookup]
    · rw [if_neg h]
      simp only [List.lookup]
      rw [show (k == k'') = false by simp [Ne.symm h]]
      exact ih

theorem lookup_objSet_ne {α : Type} (l : List (String × α)) (k k' : String) (v : α)
    (h : k' ≠ k) : List.lookup k' (objSet l k v) = List.lookup k' l := by
  induction l with
  | nil =>
    simp only [objSet, List.lookup]
    rw [show (k' == k) = false by simp [h]]
  | cons p rest ih =>
    obtain ⟨k'', v''⟩ := p
    rw [objSet]
    by_cases hk : k'' = k
    · rw [if_pos hk]
      subst hk
      simp only [List.lookup]
      rw [show (k' == k'') = false by simp [h]]
    · rw [if_neg hk]
      simp only [List.lookup]
      rcases hbe : (k' == k'') with _ | _ <;> simp_all

/-- Tracking from an absent file is tracking from the zeroed record. -/
theorem trackVisitor_none_eq (ty now : String) :
    trackVisitor ty now none =
      trackVisitor ty now (some [("total", .int 0), ("web", .int 0),
        ("api", .int 0), ("lastUpdated", .str now)]) := rfl

/-- Effect of one tracking call on `total`: two increments when the
supplied type is the string `total` itself, one otherwise. -/
theorem trackVisitor_total_some (ty now : String) (d : VisitorData) (t : Int)
    (h : List.lookup "total" d = some (.int t)) :
    List.lookup "total" (trackVisitor ty now (some d)) =
      some (.int (t + (if ty = "total" then 2 else 1))) := by
  unfold trackVisitor
  dsimp only
  rw [h]
  by_cases hty : ty = "total"
  · subst hty
    simp only [visIncVal, lookup_objSet_self, Option.isSome_some, if_true,
      if_pos rfl]
    rw [lookup_objSet_ne _ _ _ _ (by decide : ("total" : String) ≠ "lastUpdated"),
      lookup_objSet_self]
    simp only [Option.some.injEq, VisitorVal.int.injEq]
    omega
  · rw [if_neg hty]
    simp only [visIncVal]
    split
    · rw [lookup_objSet_ne _ _ _ _ (by decide : ("total" : String) ≠ "lastUpdated"),
        lookup_objSet_ne _ _ _ _ (fun he => hty he.symm), lookup_objSet_self]
    · rw [lookup_objSet_ne _ _ _ _ (by decide : ("total" : String) ≠ "lastUpdated"),
        lookup_objSet_ne _ _ _ _ (fun he => hty he.symm), lookup_objSet_self]

/-- Effect of one default-type (`web`) tracking call on both counters. -/
theorem trackVisitor_web_counts (now : String) (d : VisitorData) (t w : Int)
    (ht : List.lookup "total" d = some (.int t))
    (hw : List.lookup "web" d = some (.int w)) :
    List.lookup "total" (trackVisitor "web" now (some d)) = some (.int (t + 1)) ∧
      List.lookup "web" (trackVisitor "web" now (some d)) = some (.int (w + 1)) := by
  unfold trackVisitor
  dsimp only
  rw [ht]
  have hw1 : List.lookup "web"
      (objSet d "total" (visIncVal (some (.int t)))) = some (.int w) := by
    rw [lookup_objSet_ne _ _ _ _ (by decide : ("web" : String) ≠ "total")]
    exact hw
  rw [hw1]
  simp only [Option.isSome_some, if_true, visIncVal]
  constructor
  · rw [lookup_objSet_ne _ _ _ _ (by decide : ("total" : String) ≠ "lastUpdated"),
      lookup_objSet_ne _ _ _ _ (by decide : ("total" : String) ≠ "web"),
      lookup_objSet_self]
  · rw [lookup_objSet_ne _ _ _ _ (by decide : ("web" : String) ≠ "lastUpdated"),
      lookup_objSet_self]

/-- The endpoint with an empty body performs a default (`web`) tracking
call and stores the result. -/
theorem trackVisitorEndpoint_store (now : String) (store : Option VisitorData) :
    (trackVisitorEndpoint (some []) now store).2 =
      some (trackVisitor "web" now store) := rfl

/-- Counters after `n` sequential default tracking calls from a record
with known counters. -/
theorem runTrackN_counts (n : Nat) (nows : Nat → String) :
    ∀ (d : VisitorData) (t w : Int),
      List.lookup "total" d = some (.int t) →
      List.lookup "web" d = some (.int w) →
      ∃ d', runTrackN n nows (some d) = some d' ∧
        List.lookup "total" d' = some (.int (t + n)) ∧
        List.lookup "web" d' = some (.int (w + n)) := by
  induction n with
  | zero =>
    intro d t w ht hw
    exact ⟨d, rfl, by simpa using ht, by simpa using hw⟩
  | succ m ih =>
    intro d t w ht hw
    rw [runTrackN, trackVisitorEndpoint_store]
    obtain ⟨h1, h2⟩ := trackVisitor_web_counts (nows m) d t w ht hw
    obtain ⟨d', hrun, ht', hw'⟩ := ih (trackVisitor "web" (nows m) (some d))
      (t + 1) (w + 1) h1 h2
    refine ⟨d', hrun, ?_, ?_⟩
    · rw [ht']
      congr 2
      omega
    · rw [hw']
      congr 2
      omega

/-! ### Claim theorems -/

/-- C1: for every (well-formed) string `s`,
`base64Decode(base64Encode(s)) == s` and `urlDecode(urlEncode(s)) == s`. -/
theorem c1_roundtrip_base64_url (s : String) :
    base64Decode (base64Encode s) = Except.ok s ∧
      urlDecode (urlEncode s) = some s := by
  constructor
  · unfold base64Encode base64Decode
    rw [show (String.mk (b64EncodeBytes (utf8Encode s.data))).data =
        b64EncodeBytes (utf8Encode s.data) from rfl,
      b64DecodeRaw_b64EncodeBytes _ (utf8Encode_lt_256 _),
      utf8DecodeReplace_utf8Encode]
  · unfold urlEncode urlDecode
    rw [show (String.mk (encodeURIComponent s.data)).data =
        encodeURIComponent s.data from rfl,
      decodeURIComponent_encodeURIComponent]
    rfl

/-- C5 counterexample: `"!!!"` is not well-formed base64, yet
`base64Decode` does not fail on it - Node's forgiving decoder skips the
invalid characters and the function returns the empty string. -/
theorem c5_counterexample : base64Decode "!!!" = Except.ok "" := rfl

/-- C5 amended: `base64Decode` never fails: `Buffer.from(encoded,
'base64')` ignores characters outside its decode table rather than
throwing, so the catch that would raise `Invalid Base64 string` is
unreachable and every input decodes to some value. -/
theorem c5_base64Decode_never_fails (encoded : String) :
    ∃ v, base64Decode encoded = Except.ok v := ⟨_, rfl⟩

/-- C4 counterexample: a 2-segment token and a 3-segment token with a
non-JSON header fail with the *same* `Invalid JWT token` error - the
2-segment case does not surface the format error, because the
`Invalid JWT format` throw happens inside the try block and the catch-all
replaces it. -/
theorem c4_counterexample :
    jwtDecode "a.b" = Except.error "Invalid JWT token" ∧
      jwtDecode "a.b.b" = Except.error "Invalid JWT token" := ⟨rfl, rfl⟩

theorem jwtDecode_of_body_error (token : String) (e : String)
    (h : jwtDecodeBody token = Except.error e) :
    jwtDecode token = Except.error "Invalid JWT token" := by
  unfold jwtDecode
  rw [h]

/-- C4 amended: `jwtDecode` fails on a token without exactly 3
dot-separated segments, and on a 3-segment token whose header or payload
is not base64-encoded JSON; both failures produce the same
`Invalid JWT token` error (the internal format throw is swallowed by the
catch-all). -/
theorem c4_jwt_errors :
    (∀ token : String, (splitOnChar '.' token.data).length ≠ 3 →
      jwtDecode token = Except.error "Invalid JWT token") ∧
    (∀ token : String, (splitOnChar '.' token.data).length = 3 →
      jsonParse (String.mk (utf8DecodeReplace
          (b64DecodeRaw ((splitOnChar '.' token.data).getD 0 [])))) = none ∨
        jsonParse (String.mk (utf8DecodeReplace
          (b64DecodeRaw ((splitOnChar '.' token.data).getD 1 [])))) = none →
      jwtDecode token = Except.error "Invalid JWT token") := by
  constructor
  · intro token h
    refine jwtDecode_of_body_error token "Invalid JWT format" ?_
    unfold jwtDecodeBody
    dsimp only
    rw [if_pos h]
  · intro token h3 hbad
    refine jwtDecode_of_body_error token "SyntaxError" ?_
    unfold jwtDecodeBody
    dsimp only
    rw [if_neg (fun hh => hh h3)]
    rcases hbad with hb | hb
    · rw [hb]
    · rcases hp : jsonParse (String.mk (utf8DecodeReplace
          (b64DecodeRaw ((splitOnChar '.' token.data).getD 0 [])))) with _ | v
      · rfl
      · rw [hb]

/-- Witness for C4's amended theorem at concrete tokens. -/
theorem c4_jwt_errors_witness :
    jwtDecode "x.y" = Except.error "Invalid JWT token" ∧
      jwtDecode "x.y.z" = Except.error "Invalid JWT token" :=
  ⟨c4_jwt_errors.1 "x.y" (by decide),
    c4_jwt_errors.2 "x.y.z" (by decide) (Or.inl rfl)⟩

/-- C6: `findDifferences` yields exactly one record per 1-based line index
(up to the longer line count) at which the two line lists differ, with the
stated left/right/type fields, and nothing else; in particular the two
examples of the spec hold. -/
theorem c6_findDifferences :
    (∀ (text1 text2 : String) (d : Difference),
      d ∈ findDifferences text1 text2 ↔
        ∃ i, i < max (splitLines text1).length (splitLines text2).length ∧
          (splitLines text1).getD i "" ≠ (splitLines text2).getD i "" ∧
          d = { line := i + 1
                left := (splitLines text1).getD i ""
                right := (splitLines text2).getD i ""
                type :=
                  if (splitLines text1).getD i "" ≠ "" ∧
                      (splitLines text2).getD i "" ≠ "" then "modified"
                  else if (splitLines text1).getD i "" ≠ "" then "removed"
                  else "added" }) ∧
    findDifferences "a\nb" "a\nc" =
      [{ line := 2, left := "b", right := "c", type := "modified" }] ∧
    findDifferences "a" "a\nb" =
      [{ line := 2, left := "", right := "b", type := "added" }] := by
  refine ⟨?_, by rfl, by rfl⟩
  intro text1 text2 d
  unfold findDifferences
  simp only [List.mem_filterMap, List.mem_range]
  constructor
  · rintro ⟨i, hi, hf⟩
    by_cases heq : (splitLines text1).getD i "" = (splitLines text2).getD i ""
    · rw [if_pos heq] at hf
      exact absurd hf (by simp)
    · rw [if_neg heq] at hf
      exact ⟨i, hi, heq, (Option.some.inj hf).symm⟩
  · rintro ⟨i, hi, hne, rfl⟩
    exact ⟨i, hi, by rw [if_neg hne]⟩

/-- C8: `creditCardValidator` strips non-digits, validates by the Luhn
checksum and classifies the type by leading digits; the three examples of
the spec hold, stripping is invariant, and validity is exactly the Luhn
test. -/
theorem c8_creditCardValidator :
    (creditCardValidator "4539148803436467").valid = true ∧
    (creditCardValidator "4539148803436468").valid = false ∧
    (creditCardValidator "4111111111111111").type = "visa" ∧
    (∀ number : String,
      creditCardValidator number =
        creditCardValidator (String.mk (digitChars number))) ∧
    (∀ number : String,
      (creditCardValidator number).valid = true ↔
        luhnSumAux (digitsOf number).reverse false % 10 = 0) := by
  refine ⟨by decide, by decide, by decide, ?_, ?_⟩
  · intro number
    unfold creditCardValidator
    have hd : digitChars (String.mk (digitChars number)) = digitChars number := by
      unfold digitChars
      simp
    rw [hd]
  · intro number
    unfold creditCardValidator
    simp [digitsOf, digitChars]

/-- C3 counterexample: a single tracking call with type `total`, starting
from an absent file, leaves `total` at 2, not 1: the per-type increment
hits the `total` field itself, so not every call increments `total` by
exactly one. -/
theorem c3_counterexample :
    List.lookup "total" (trackVisitor "total" "t0" none) =
      some (VisitorVal.int 2) := rfl

/-- C3 amended: starting from an absent file, `n` sequential tracking
calls with no type give stats with `total == n` and `web == n`; each call
increments `total` by exactly 1 for every supplied type except the string
`total` itself, which increments it by 2 (that per-type counter is the
same field). -/
theorem c3_visitor_counts :
    (∀ (n : Nat) (nows : Nat → String) (now2 : String),
      List.lookup "total" (getVisitorStats now2 (runTrackN n nows none)) =
          some (.int n) ∧
        List.lookup "web" (getVisitorStats now2 (runTrackN n nows none)) =
          some (.int n)) ∧
    (∀ (ty now : String) (d : VisitorData) (t : Int),
      List.lookup "total" d = some (.int t) →
      List.lookup "total" (trackVisitor ty now (some d)) =
        some (.int (t + (if ty = "total" then 2 else 1)))) ∧
    (∀ ty now : String,
      List.lookup "total" (trackVisitor ty now none) =
        some (.int (if ty = "total" then 2 else 1))) := by
  refine ⟨?_, trackVisitor_total_some, ?_⟩
  · intro n nows now2
    cases n with
    | zero => exact ⟨rfl, rfl⟩
    | succ m =>
      rw [runTrackN, trackVisitorEndpoint_store]
      have h1 : List.lookup "total" (trackVisitor "web" (nows m) none) =
          some (.int 1) ∧
          List.lookup "web" (trackVisitor "web" (nows m) none) =
            some (.int 1) := by
        rw [trackVisitor_none_eq]
        exact trackVisitor_web_counts (nows m) _ 0 0 rfl rfl
      obtain ⟨d', hrun, ht', hw'⟩ := runTrackN_counts m nows
        (trackVisitor "web" (nows m) none) 1 1 h1.1 h1.2
      rw [hrun]
      unfold getVisitorStats
      refine ⟨by rw [ht']; congr 2; omega, by rw [hw']; congr 2; omega⟩
  · intro ty now
    rw [trackVisitor_none_eq]
    rw [trackVisitor_total_some ty now
      [("total", .int 0), ("web", .int 0), ("api", .int 0),
        ("lastUpdated", .str now)] 0 rfl]
    congr 2
    omega

/-- Witness for C3's amended theorem: one typed call on a concrete
record. -/
theorem c3_visitor_counts_witness :
    List.lookup "total" (trackVisitor "api" "t1"
        (some [("total", VisitorVal.int 5)])) = some (VisitorVal.int 6) := by
  have h := c3_visitor_counts.2.1 "api" "t1" [("total", VisitorVal.int 5)] 5 rfl
  simpa using h

/-- C2: a well-formed body missing a required field is answered 400 with
that endpoint's `<Field> is required` message (e.g. `api/base64/encode`
with `\x7b\x7d`); and a POST to an `api/` path handled by no switch case (and
not by the fixed health/track endpoints) is answered 400 - not 404 - with
`Endpoint not found`. -/
theorem c2_validation_and_unknown_endpoint :
    (∀ (path : String) (payload : List (String × JsValue)) (fields : List String)
        (msg f : String), pathRequired path = some (fields, msg) → f ∈ fields →
        List.lookup f payload = none →
        apiPostResponse path (some payload) = some (400, errBody msg)) ∧
    apiPostResponse "api/base64/encode" (some []) =
      some (400, errBody "Text is required") ∧
    (∀ (rawPath : String) (payload : List (String × JsValue)),
      startsWithApi (trimSlashes rawPath) = true →
      trimSlashes rawPath ∉ switchPaths →
      trimSlashes rawPath ≠ "api/health" →
      trimSlashes rawPath ≠ "api/visitors/track" →
      serverPostResponse rawPath (some payload) =
        some (400, errBody "Endpoint not found")) := by
  refine ⟨?_, by rfl, ?_⟩
  · intro path payload fields msg f hp hf hl
    unfold apiPostResponse
    dsimp only
    rw [apiDispatch_guard_fails path payload fields msg f hp hf
      (by simp [fieldTruthy, jsTruthyOpt, hl])]
  · intro rawPath payload h1 h2 h3 h4
    unfold serverPostResponse
    dsimp only
    rw [if_neg h3, if_neg h4, if_pos h1]
    unfold apiPostResponse
    dsimp only
    rw [apiDispatch_unknown _ payload h2]

/-- Witness for C2 at the spec's concrete inputs. -/
theorem c2_witness :
    apiPostResponse "api/base64/encode" (some [("other", JsValue.num 1)]) =
        some (400, errBody "Text is required") ∧
      serverPostResponse "/api/tools/does-not-exist" (some []) =
        some (400, errBody "Endpoint not found") :=
  ⟨c2_validation_and_unknown_endpoint.1 "api/base64/encode" _ ["text"]
      "Text is required" "text" rfl (by simp) rfl,
    c2_validation_and_unknown_endpoint.2.2 "/api/tools/does-not-exist" []
      (by decide) (by decide) (by decide) (by decide)⟩

/-- C10: the router's required-field guards test JavaScript falsiness, not
absence: a present but falsy field (empty string, 0, false, null) is
rejected exactly like a missing one, 400 with the same message - e.g.
`api/base64/encode` with text `""` and `api/convert/timestamp` with
timestamp `0`; a truthy field passes the guard. -/
theorem c10_falsy_fields_rejected :
    (∀ (path : String) (payload : List (String × JsValue)) (fields : List String)
        (msg f : String) (v : JsValue), pathRequired path = some (fields, msg) →
        f ∈ fields → List.lookup f payload = some v → jsFalsy v = true →
        apiPostResponse path (some payload) = some (400, errBody msg)) ∧
    apiPostResponse "api/base64/encode" (some [("text", JsValue.str "")]) =
      some (400, errBody "Text is required") ∧
    apiPostResponse "api/convert/timestamp" (some [("timestamp", JsValue.num 0)]) =
      some (400, errBody "Timestamp is required") ∧
    (∀ v : JsValue, jsFalsy v = true →
      apiPostResponse "api/base64/encode" (some [("text", v)]) =
        apiPostResponse "api/base64/encode" (some [])) ∧
    (∀ v : JsValue, jsFalsy v = false →
      apiDispatch "api/base64/encode" [("text", v)] =
        DispatchOutcome.transformed "base64Encode") := by
  refine ⟨?_, by rfl, by rfl, ?_, ?_⟩
  · intro path payload fields msg f v hp hf hl hv
    unfold apiPostResponse
    dsimp only
    rw [apiDispatch_guard_fails path payload fields msg f hp hf
      (by simp [fieldTruthy, jsTruthyOpt, hl, hv])]
  · intro v hv
    unfold apiPostResponse
    dsimp only
    rw [apiDispatch_guard_fails "api/base64/encode" _ ["text"] "Text is required"
        "text" rfl (by simp) (by simp [fieldTruthy, jsTruthyOpt, List.lookup, hv]),
      apiDispatch_guard_fails "api/base64/encode" [] ["text"] "Text is required"
        "text" rfl (by simp) (by simp [fieldTruthy, jsTruthyOpt, List.lookup])]
  · intro v hv
    have : fieldTruthy [("text", v)] "text" = true := by
      simp [fieldTruthy, jsTruthyOpt, List.lookup, hv]
    simp [apiDispatch, this]

/-- Witness for C10 at a concrete falsy and truthy field. -/
theorem c10_witness :
    apiPostResponse "api/convert/timestamp"
        (some [("timestamp", JsValue.num 0), ("x", JsValue.bool true)]) =
        some (400, errBody "Timestamp is required") ∧
      apiDispatch "api/base64/encode" [("text", JsValue.str "hi")] =
        DispatchOutcome.transformed "base64Encode" :=
  ⟨c10_falsy_fields_rejected.1 "api/convert/timestamp" _ ["timestamp"]
      "Timestamp is required" "timestamp" (JsValue.num 0) rfl (by simp) (by simp)
      (by decide),
    c10_falsy_fields_rejected.2.2.2.2 (JsValue.str "hi") (by decide)⟩

/-! ### Association-list construction lemmas -/

theorem objSet_append_fresh {α : Type} (acc : List (String × α)) (k : String)
    (v : α) (h : ∀ q ∈ acc, q.1 ≠ k) : objSet acc k v = acc ++ [(k, v)] := by
  induction acc with
  | nil => rfl
  | cons q rest ih =>
    obtain ⟨k'', v''⟩ := q
    rw [objSet, if_neg (h (k'', v'') (by simp)), List.cons_append,
      ih (fun q hq => h q (by simp [hq]))]

theorem nodupKeysG_iff {α : Type} (l : List (String × α)) :
    nodupKeysG l = true ↔ (l.map Prod.fst).Nodup := by
  induction l with
  | nil => exact iff_of_true rfl List.nodup_nil
  | cons p rest ih =>
    obtain ⟨k, v⟩ := p
    simp only [nodupKeysG, Bool.and_eq_true, Bool.not_eq_true', List.map_cons,
      List.nodup_cons, ih, List.any_eq_false, List.mem_map]
    constructor
    · rintro ⟨h1, h2⟩
      refine ⟨?_, h2⟩
      rintro ⟨q, hq, hk⟩
      have := h1 q hq
      simp [hk] at this
    · rintro ⟨h1, h2⟩
      refine ⟨?_, h2⟩
      intro q hq
      simp only [decide_eq_true_eq]
      intro hk
      exact h1 ⟨q, hq, hk⟩

/-- Building an association list by repeated JavaScript property
assignment from fresh, pairwise distinct keys appends the pairs in
order. -/
theorem foldl_objSet_append {α : Type} :
    ∀ (ms acc : List (String × α)),
      (∀ p ∈ ms, ∀ q ∈ acc, q.1 ≠ p.1) → nodupKeysG ms = true →
      ms.foldl (fun o kv => objSet o kv.1 kv.2) acc = acc ++ ms := by
  intro ms
  induction ms with
  | nil => simp
  | cons kv rest ih =>
    intro acc hfresh hnd
    obtain ⟨k, v⟩ := kv
    simp only [nodupKeysG, Bool.and_eq_true, Bool.not_eq_true',
      List.any_eq_false] at hnd
    obtain ⟨hnd1, hnd2⟩ := hnd
    rw [List.foldl_cons]
    rw [show objSet acc k v = acc ++ [(k, v)] from
      objSet_append_fresh acc k v (fun q hq => hfresh (k, v) (by simp) q hq)]
    rw [ih (acc ++ [(k, v)]) ?_ hnd2]
    · simp
    · intro p hp q hq
      rcases List.mem_append.mp hq with hq | hq
      · exact hfresh p (by simp [hp]) q hq
      · have hqk : q = (k, v) := by simpa using hq
        subst hqk
        intro he
        exact absurd (by simpa using he.symm) (hnd1 p hp)

/-- C7: `csvToJson` keys each row by the trimmed, quote-stripped header
names in order, padding a short row's missing trailing cells with the
empty string (the spec's example), and an input with no non-blank lines
yields the empty sequence. -/
theorem c7_csvToJson :
    csvToJson "a,b\n1,2\n3" = [[("a", "1"), ("b", "2")], [("a", "3"), ("b", "")]] ∧
    (∀ csv : String,
      (splitOnChar '\n' csv.data).filter (fun line => jsTrim line ≠ []) = [] →
      csvToJson csv = []) ∧
    (∀ (hs vs : List String), hs.Nodup →
      csvRowObj hs vs = hs.enum.map (fun p => (p.2, vs.getD p.1 ""))) ∧
    (∀ (vs : List String) (i : Nat), vs.length ≤ i → vs.getD i "" = "") := by
  refine ⟨by rfl, ?_, ?_, ?_⟩
  · intro csv h
    unfold csvToJson
    rw [h]
  · intro hs vs hnd
    have h1 : csvRowObj hs vs =
        List.foldl (fun (o : List (String × String)) kv => objSet o kv.1 kv.2) []
          (hs.enum.map (fun p => (p.2, vs.getD p.1 ""))) := by
      unfold csvRowObj
      exact (List.foldl_map (fun p : Nat × String => (p.2, vs.getD p.1 ""))
        (fun (o : List (String × String)) kv => objSet o kv.1 kv.2)
        hs.enum []).symm
    rw [h1, foldl_objSet_append _ [] (by simp) ?_]
    · simp
    · rw [nodupKeysG_iff]
      have : ((hs.enum.map (fun p => (p.2, vs.getD p.1 ""))).map Prod.fst) = hs := by
        simp [List.map_map, Function.comp_def, List.enum_map_snd]
      rw [this]
      exact hnd
  · intro vs i h
    simp [List.getD, List.getElem?_eq_none h]

/-- Witness for C7's padding clause at the spec's row. -/
theorem c7_witness : csvRowObj ["a", "b"] ["3"] = [("a", "3"), ("b", "")] := by
  rw [c7_csvToJson.2.2.1 ["a", "b"] ["3"] (by decide)]
  rfl

/-! ### JSON serializer length and digit lemmas -/

theorem natReprAux_ne_nil (f n : Nat) (h1 : 0 < n) (h2 : n ≤ f) :
    natReprAux f n ≠ [] := by
  cases f with
  | zero => omega
  | succ f' =>
    rw [natReprAux, if_neg (by omega)]
    simp

theorem natRepr_ne_nil (n : Nat) : natRepr n ≠ [] := by
  unfold natRepr
  split
  · simp
  · exact natReprAux_ne_nil n n (by omega) le_rfl

theorem intRepr_ne_nil (n : Int) : intRepr n ≠ [] := by
  unfold intRepr
  split
  · simp
  · exact natRepr_ne_nil _

mutual

theorem jsizeV_le_length : ∀ v : JsValue, jsizeV v ≤ (stringifyVal v).length
  | .null => by simp [jsizeV, stringifyVal]
  | .bool b => by cases b <;> simp [jsizeV, stringifyVal]
  | .num n => by
    have h := List.length_pos.mpr (intRepr_ne_nil n)
    simp only [jsizeV, stringifyVal]
    omega
  | .str s => by simp [jsizeV, stringifyVal]
  | .arr l => by
    have h := jsizeL_le_length l
    simp only [jsizeV, stringifyVal, List.length_cons, List.length_append,
      List.length_singleton]
    omega
  | .obj ms => by
    have h := jsizeM_le_length ms
    simp only [jsizeV, stringifyVal, List.length_cons, List.length_append,
      List.length_singleton]
    omega

theorem jsizeL_le_length : ∀ l : List JsValue, jsizeL l ≤ (stringifyArr l).length + 1
  | [] => by simp [jsizeL, stringifyArr]
  | [v] => by
    have h := jsizeV_le_length v
    simp only [jsizeL, stringifyArr]
    omega
  | v :: v2 :: rest => by
    have h1 := jsizeV_le_length v
    have h2 := jsizeL_le_length (v2 :: rest)
    simp only [jsizeL] at h2 ⊢
    simp only [stringifyArr, List.length_append, List.length_cons]
    omega

theorem jsizeM_le_length :
    ∀ ms : List (String × JsValue), jsizeM ms ≤ (stringifyMembers ms).length + 1
  | [] => by simp [jsizeM, stringifyMembers]
  | [(k, v)] => by
    have h := jsizeV_le_length v
    simp only [jsizeM, stringifyMembers, List.length_cons, List.length_append]
    omega
  | (k, v) :: m2 :: rest => by
    have h1 := jsizeV_le_length v
    have h2 := jsizeM_le_length (m2 :: rest)
    simp only [jsizeM] at h2 ⊢
    simp only [stringifyMembers, List.length_cons, List.length_append]
    omega

end

mutual

theorem jsizeV_le_pretty : ∀ (ind : Nat) (v : JsValue),
    jsizeV v ≤ (prettyVal ind v).length
  | _, .null => by simp [jsizeV, prettyVal]
  | _, .bool b => by cases b <;> simp [jsizeV, prettyVal]
  | _, .num n => by
    have h := List.length_pos.mpr (intRepr_ne_nil n)
    simp only [jsizeV, prettyVal]
    omega
  | _, .str s => by simp [jsizeV, prettyVal]
  | ind, .arr [] => by simp [jsizeV, jsizeL, prettyVal]
  | ind, .arr (v :: rest) => by
    have h := jsizeL_le_pretty (ind + 2) (v :: rest)
    simp only [jsizeV, prettyVal, List.length_cons, List.length_append,
      List.length_singleton]
    omega
  | ind, .obj [] => by simp [jsizeV, jsizeM, prettyVal]
  | ind, .obj (m :: rest) => by
    have h := jsizeM_le_pretty (ind + 2) (m :: rest)
    simp only [jsizeV, prettyVal, List.length_cons, List.length_append,
      List.length_singleton]
    omega

theorem jsizeL_le_pretty : ∀ (ind : Nat) (l : List JsValue),
    jsizeL l ≤ (prettyArr ind l).length + 1
  | _, [] => by simp [jsizeL, prettyArr]
  | ind, [v] => by
    have h := jsizeV_le_pretty ind v
    simp only [jsizeL, prettyArr, List.length_append]
    omega
  | ind, v :: v2 :: rest => by
    have h1 := jsizeV_le_pretty ind v
    have h2 := jsizeL_le_pretty ind (v2 :: rest)
    simp only [jsizeL] at h2 ⊢
    simp only [prettyArr, List.length_append, List.length_cons]
    omega

theorem jsizeM_le_pretty : ∀ (ind : Nat) (ms : List (String × JsValue)),
    jsizeM ms ≤ (prettyMembers ind ms).length + 1
  | _, [] => by simp [jsizeM, prettyMembers]
  | ind, [(k, v)] => by
    have h := jsizeV_le_pretty ind v
    simp only [jsizeM, prettyMembers, List.length_cons, List.length_append]
    omega
  | ind, (k, v) :: m2 :: rest => by
    have h1 := jsizeV_le_pretty ind v
    have h2 := jsizeM_le_pretty ind (m2 :: rest)
    simp only [jsizeM] at h2 ⊢
    simp only [prettyMembers, List.length_cons, List.length_append]
    omega

end

/-! ### Decimal literal round trip -/

theorem natReprAux_zero (f : Nat) : natReprAux f 0 = [] := by
  cases f with
  | zero => rfl
  | succ f' => simp [natReprAux]

theorem natReprAux_eq_digits :
    ∀ (f n : Nat), n ≤ f →
      natReprAux f n =
        ((Nat.digits 10 n).map (fun d => Char.ofNat (48 + d))).reverse := by
  intro f
  induction f with
  | zero =>
    intro n h
    have : n = 0 := by omega
    subst this
    simp [natReprAux]
  | succ f' ih =>
    intro n h
    by_cases hz : n = 0
    · subst hz
      simp [natReprAux]
    · have hlt : n / 10 < n := Nat.div_lt_self (by omega) (by norm_num)
      rw [natReprAux, if_neg hz, ih (n / 10) (by omega),
        Nat.digits_def' (by norm_num : (1 : Nat) < 10) (show 0 < n by omega)]
      simp

theorem natRepr_digits_all (n : Nat) : ∀ c ∈ natRepr n, isDigitChar c = true := by
  intro c hc
  unfold natRepr at hc
  split at hc
  · simp only [List.mem_singleton] at hc
    subst hc
    decide
  · rw [natReprAux_eq_digits n n le_rfl, List.mem_reverse, List.mem_map] at hc
    obtain ⟨d, hd, rfl⟩ := hc
    have hlt : d < 10 := Nat.digits_lt_base (by norm_num) hd
    have hv : (48 + d).isValidChar := Or.inl (by omega)
    simp only [isDigitChar, toNat_ofNat_valid _ hv, Bool.and_eq_true,
      decide_eq_true_eq]
    omega

theorem natReprAux_head_ne_zero :
    ∀ (f n : Nat), 0 < n → n ≤ f → ∀ (c : Char) (t : List Char),
      natReprAux f n = c :: t → c ≠ '0' := by
  intro f
  induction f with
  | zero => intro n h1 h2; omega
  | succ f' ih =>
    intro n h1 h2 c t he
    rw [natReprAux, if_neg (by omega)] at he
    by_cases h10 : n / 10 = 0
    · rw [h10, natReprAux_zero, List.nil_append] at he
      have hc : c = Char.ofNat (48 + n % 10) := (List.cons.inj he).1.symm
      subst hc
      intro hz
      have hv : (48 + n % 10).isValidChar := Or.inl (by omega)
      have hq := congrArg Char.toNat hz
      rw [toNat_ofNat_valid _ hv, show ('0' : Char).toNat = 48 from rfl] at hq
      omega
    · cases ha : natReprAux f' (n / 10) with
      | nil => exact absurd ha (natReprAux_ne_nil f' (n / 10) (by omega) (by omega))
      | cons ch tl =>
        rw [ha, List.cons_append] at he
        have hce : c = ch := ((List.cons.inj he).1).symm
        rw [hce]
        exact ih (n / 10) (by omega) (by omega) ch tl ha

theorem natFromDigits_reverse (ds : List Nat) :
    natFromDigits ds.reverse = Nat.ofDigits 10 ds := by
  induction ds with
  | nil => rfl
  | cons d t ih =>
    rw [List.reverse_cons]
    unfold natFromDigits
    rw [List.foldl_append]
    unfold natFromDigits at ih
    rw [ih, Nat.ofDigits_cons]
    simp only [List.foldl_cons, List.foldl_nil]
    omega

theorem natRepr_value (n : Nat) :
    natFromDigits ((natRepr n).map digitVal) = n := by
  unfold natRepr
  split
  · subst_eqs
    rfl
  · have hmap : ((Nat.digits 10 n).map (fun d => Char.ofNat (48 + d))).map digitVal =
        Nat.digits 10 n := by
      rw [List.map_map]
      refine (List.map_congr_left ?_).trans (List.map_id _)
      intro d hd
      have hlt : d < 10 := Nat.digits_lt_base (by norm_num) hd
      have hv : (48 + d).isValidChar := Or.inl (by omega)
      simp only [Function.comp_apply, digitVal, toNat_ofNat_valid _ hv, id_eq]
      omega
    rw [natReprAux_eq_digits n n le_rfl, List.map_reverse, hmap,
      natFromDigits_reverse, Nat.ofDigits_digits]

theorem takeWhile_dropWhile_append {p : Char → Bool} :
    ∀ (l r : List Char), (∀ c ∈ l, p c = true) →
      (∀ c, r.head? = some c → p c = false) →
      (l ++ r).takeWhile p = l ∧ (l ++ r).dropWhile p = r := by
  intro l
  induction l with
  | nil =>
    intro r _ hr
    cases r with
    | nil => simp
    | cons c r' =>
      have := hr c rfl
      simp [List.takeWhile_cons, List.dropWhile_cons, this]
  | cons c l' ih =>
    intro r hl hr
    have hc := hl c (by simp)
    obtain ⟨ht, hd⟩ := ih r (fun x hx => hl x (by simp [hx])) hr
    simp [List.takeWhile_cons, List.dropWhile_cons, hc, ht, hd]

theorem parseNat_natRepr (n : Nat) (rest : List Char)
    (hr : ∀ c, rest.head? = some c → isDigitChar c = false) :
    parseNat (natRepr n ++ rest) = some (n, rest) := by
  obtain ⟨ht, hd⟩ := takeWhile_dropWhile_append (natRepr n) rest
    (natRepr_digits_all n) hr
  unfold parseNat
  rw [ht, hd, if_neg (natRepr_ne_nil n)]
  rw [if_neg ?lead]
  case lead =>
    rintro ⟨hh, hlen⟩
    by_cases hz : n = 0
    · subst hz
      rw [show natRepr 0 = ['0'] from rfl] at hlen
      simp at hlen
    · rcases hc : natRepr n with _ | ⟨c, t⟩
      · exact natRepr_ne_nil n hc
      · rw [hc] at hh
        simp only [List.head?_cons, Option.some.injEq] at hh
        refine natReprAux_head_ne_zero n n (by omega) le_rfl c t ?_ hh
        unfold natRepr at hc
        rwa [if_neg hz] at hc
  rw [natRepr_value]

theorem digit_ne_char (c : Char) (h : isDigitChar c = true) (d : Char)
    (hd : ¬ (48 ≤ d.toNat ∧ d.toNat ≤ 57)) : c ≠ d := by
  intro he
  subst he
  simp only [isDigitChar, Bool.and_eq_true, decide_eq_true_eq] at h
  exact hd h

theorem parseNumber_intRepr (n : Int) (rest : List Char)
    (hr : ∀ c, rest.head? = some c → isDigitChar c = false) :
    parseNumber (intRepr n ++ rest) = some (n, rest) := by
  unfold intRepr
  by_cases hneg : n < 0
  · rw [if_pos hneg, List.cons_append, parseNumber, if_pos rfl,
      parseNat_natRepr _ rest hr]
    simp only [Option.map_some', Option.some.injEq, Prod.mk.injEq, and_true]
    omega
  · rw [if_neg hneg]
    rcases hc : natRepr n.natAbs with _ | ⟨c, t⟩
    · exact absurd hc (natRepr_ne_nil _)
    · have hcd : isDigitChar c = true := by
        refine natRepr_digits_all n.natAbs c ?_
        rw [hc]
        simp
      have key := parseNat_natRepr n.natAbs rest hr
      rw [hc, List.cons_append] at key
      rw [List.cons_append, parseNumber,
        if_neg (digit_ne_char c hcd '-' (by decide)), key]
      simp only [Option.map_some', Option.some.injEq, Prod.mk.injEq, and_true]
      omega

/-! ### JSON string literal round trip -/

theorem hexVal_hexLower : ∀ v : Fin 16, hexVal (hexLower v.val) = some v.val := by
  decide

theorem hexVal_hexLower_of_lt (v : Nat) (h : v < 16) : hexVal (hexLower v) = some v :=
  hexVal_hexLower ⟨v, h⟩

theorem escChar_length_pos (c : Char) : 1 ≤ (escChar c).length := by
  unfold escChar
  split_ifs <;> simp

theorem escString_length (s : List Char) : s.length ≤ (escString s).length := by
  induction s with
  | nil => simp [escString]
  | cons c s2 ih =>
    rw [escString]
    simp only [List.length_cons, List.length_append]
    have := escChar_length_pos c
    omega

theorem parseStringBodyFuel_esc (s : List Char) :
    ∀ (fuel : Nat) (rest : List Char), s.length < fuel →
      parseStringBodyFuel fuel (escString s ++ '"' :: rest) = some (s, rest) := by
  induction s with
  | nil =>
    intro fuel rest h
    obtain ⟨f, rfl⟩ : ∃ f, fuel = f + 1 := ⟨fuel - 1, by omega⟩
    simp [escString, parseStringBodyFuel]
  | cons c s2 ih =>
    intro fuel rest h
    obtain ⟨f, rfl⟩ : ∃ f, fuel = f + 1 := ⟨fuel - 1, by omega⟩
    have hs : s2.length < f := by simp only [List.length_cons] at h; omega
    rw [escString, List.append_assoc]
    unfold escChar
    by_cases h1 : c = '"'
    · subst h1
      rw [if_pos rfl]
      simp only [List.cons_append, List.nil_append]
      rw [parseStringBodyFuel]
      simp [strEscSeq, escName, ih f rest hs]
    rw [if_neg h1]
    by_cases h2 : c = '\\'
    · subst h2
      rw [if_pos rfl]
      simp only [List.cons_append, List.nil_append]
      rw [parseStringBodyFuel]
      simp [strEscSeq, escName, ih f rest hs]
    rw [if_neg h2]
    by_cases h3 : c = '\n'
    · subst h3
      rw [if_pos rfl]
      simp only [List.cons_append, List.nil_append]
      rw [parseStringBodyFuel]
      simp [strEscSeq, escName, ih f rest hs]
    rw [if_neg h3]
    by_cases h4 : c = '\r'
    · subst h4
      rw [if_pos rfl]
      simp only [List.cons_append, List.nil_append]
      rw [parseStringBodyFuel]
      simp [strEscSeq, escName, ih f rest hs]
    rw [if_neg h4]
    by_cases h5 : c = '\t'
    · subst h5
      rw [if_pos rfl]
      simp only [List.cons_append, List.nil_append]
      rw [parseStringBodyFuel]
      simp [strEscSeq, escName, ih f rest hs]
    rw [if_neg h5]
    by_cases h6 : c.toNat = 8
    · rw [if_pos h6]
      simp only [List.cons_append, List.nil_append]
      rw [parseStringBodyFuel]
      simp [strEscSeq, escName, ih f rest hs]
      exact ofNat_eq_of_toNat c 8 h6
    rw [if_neg h6]
    by_cases h7 : c.toNat = 12
    · rw [if_pos h7]
      simp only [List.cons_append, List.nil_append]
      rw [parseStringBodyFuel]
      simp [strEscSeq, escName, ih f rest hs]
      exact ofNat_eq_of_toNat c 12 h7
    rw [if_neg h7]
    by_cases h8 : c.toNat < 0x20
    · rw [if_pos h8]
      simp only [List.cons_append, List.nil_append]
      rw [parseStringBodyFuel, if_neg (by decide : ¬ ('\\' : Char) = '"'), if_pos rfl,
        strEscSeq, if_pos rfl, hex4]
      rw [show hexVal '0' = some 0 from rfl,
        hexVal_hexLower_of_lt (c.toNat / 16) (by omega),
        hexVal_hexLower_of_lt (c.toNat % 16) (by omega)]
      dsimp only
      rw [if_pos (Or.inl (by omega :
        ((0 * 16 + 0) * 16 + c.toNat / 16) * 16 + c.toNat % 16 < 0xD800)),
        ih f rest hs, Option.map_some', ofNat_eq_of_toNat c _ (by omega)]
    · rw [if_neg h8]
      simp only [List.cons_append, List.nil_append]
      rw [parseStringBodyFuel, if_neg h1, if_neg h2, if_neg h8, ih f rest hs,
        Option.map_some']

theorem parseStringBody_esc (s rest : List Char) :
    parseStringBody (escString s ++ '"' :: rest) = some (s, rest) := by
  refine parseStringBodyFuel_esc s _ rest ?_
  simp only [List.length_append, List.length_cons]
  have := escString_length s
  omega

/-! ### Whitespace and first-character lemmas -/

theorem skipWs_cons_not (c : Char) (t : List Char) (h : isJsonWs c = false) :
    skipWs (c :: t) = c :: t := by
  simp [skipWs, List.dropWhile_cons, h]

theorem skipWs_append_ws (l x : List Char)
    (h : ∀ c ∈ l, isJsonWs c = true) : skipWs (l ++ x) = skipWs x := by
  induction l with
  | nil => rfl
  | cons c t ih =>
    have hc := h c (by simp)
    simp only [skipWs, List.cons_append, List.dropWhile_cons, hc, if_true]
    exact ih (fun d hd => h d (by simp [hd]))

theorem ws_not_digit (c : Char) (h : isJsonWs c = true) : isDigitChar c = false := by
  simp only [isJsonWs, Bool.or_eq_true, decide_eq_true_eq] at h
  rcases h with ((h | h) | h) | h <;> subst h <;> decide

theorem replicate_ws (n : Nat) : ∀ c ∈ List.replicate n ' ', isJsonWs c = true := by
  intro c hc
  rw [List.eq_of_mem_replicate hc]
  decide

theorem char_ne_of_codes {c : Char} (h : c.toNat = 45 ∨ (48 ≤ c.toNat ∧ c.toNat ≤ 57))
    (d : Char) (hd : ¬ (d.toNat = 45 ∨ (48 ≤ d.toNat ∧ d.toNat ≤ 57))) : c ≠ d :=
  fun he => hd (he ▸ h)

theorem not_ws_of_codes {c : Char} (h : c.toNat = 45 ∨ (48 ≤ c.toNat ∧ c.toNat ≤ 57)) :
    isJsonWs c = false := by
  have h32 := char_ne_of_codes h ' ' (by decide)
  have h9 := char_ne_of_codes h '\t' (by decide)
  have h10 := char_ne_of_codes h '\n' (by decide)
  have h13 := char_ne_of_codes h '\x0d' (by decide)
  simp [isJsonWs, h32, h9, h10, h13]

theorem intRepr_head (n : Int) :
    ∃ c t, intRepr n = c :: t ∧ (c.toNat = 45 ∨ (48 ≤ c.toNat ∧ c.toNat ≤ 57)) := by
  unfold intRepr
  split
  · exact ⟨'-', natRepr n.natAbs, rfl, Or.inl (by decide)⟩
  · rcases hc : natRepr n.natAbs with _ | ⟨c, t⟩
    · exact absurd hc (natRepr_ne_nil _)
    · refine ⟨c, t, rfl, Or.inr ?_⟩
      have hd := natRepr_digits_all n.natAbs c (by rw [hc]; simp)
      simp only [isDigitChar, Bool.and_eq_true, decide_eq_true_eq] at hd
      exact hd

theorem stringifyVal_head (v : JsValue) :
    ∃ c t, stringifyVal v = c :: t ∧ isJsonWs c = false ∧ c ≠ ']' := by
  cases v with
  | null => exact ⟨'n', _, rfl, by decide, by decide⟩
  | bool b =>
    cases b
    · exact ⟨'f', _, rfl, by decide, by decide⟩
    · exact ⟨'t', _, rfl, by decide, by decide⟩
  | num n =>
    obtain ⟨c, t, hct, hcode⟩ := intRepr_head n
    exact ⟨c, t, by simp [stringifyVal, hct], not_ws_of_codes hcode,
      char_ne_of_codes hcode ']' (by decide)⟩
  | str s => exact ⟨'"', _, rfl, by decide, by decide⟩
  | arr l => exact ⟨'[', _, rfl, by decide, by decide⟩
  | obj ms => exact ⟨'{', _, rfl, by decide, by decide⟩

theorem prettyVal_head (ind : Nat) (v : JsValue) :
    ∃ c t, prettyVal ind v = c :: t ∧ isJsonWs c = false ∧ c ≠ ']' := by
  cases v with
  | null => exact ⟨'n', _, rfl, by decide, by decide⟩
  | bool b =>
    cases b
    · exact ⟨'f', _, rfl, by decide, by decide⟩
    · exact ⟨'t', _, rfl, by decide, by decide⟩
  | num n =>
    obtain ⟨c, t, hct, hcode⟩ := intRepr_head n
    exact ⟨c, t, by simp [prettyVal, hct], not_ws_of_codes hcode,
      char_ne_of_codes hcode ']' (by decide)⟩
  | str s => exact ⟨'"', _, rfl, by decide, by decide⟩
  | arr l =>
    cases l with
    | nil => exact ⟨'[', _, rfl, by decide, by decide⟩
    | cons w l2 => exact ⟨'[', _, rfl, by decide, by decide⟩
  | obj ms =>
    cases ms with
    | nil => exact ⟨'{', _, rfl, by decide, by decide⟩
    | cons m ms2 => exact ⟨'{', _, rfl, by decide, by decide⟩

theorem stringifyArr_cons (v : JsValue) (l : List JsValue) :
    stringifyArr (v :: l) =
      stringifyVal v ++ (if l.isEmpty then [] else ',' :: stringifyArr l) := by
  cases l with
  | nil => simp [stringifyArr]
  | cons w l2 => simp [stringifyArr]

theorem stringifyMembers_cons (k : String) (v : JsValue)
    (ms : List (String × JsValue)) :
    stringifyMembers ((k, v) :: ms) =
      '"' :: escString k.data ++ '"' :: ':' :: stringifyVal v ++
        (if ms.isEmpty then [] else ',' :: stringifyMembers ms) := by
  cases ms with
  | nil => simp [stringifyMembers]
  | cons m ms2 => simp [stringifyMembers]

theorem prettyArr_cons (ind : Nat) (v : JsValue) (l : List JsValue) :
    prettyArr ind (v :: l) =
      List.replicate ind ' ' ++ prettyVal ind v ++
        (if l.isEmpty then [] else ',' :: '\n' :: prettyArr ind l) := by
  cases l with
  | nil => simp [prettyArr]
  | cons w l2 => simp [prettyArr]

theorem prettyMembers_cons (ind : Nat) (k : String) (v : JsValue)
    (ms : List (String × JsValue)) :
    prettyMembers ind ((k, v) :: ms) =
      List.replicate ind ' ' ++ '"' :: escString k.data ++ '"' :: ':' :: ' ' ::
        prettyVal ind v ++
        (if ms.isEmpty then [] else ',' :: '\n' :: prettyMembers ind ms) := by
  cases ms with
  | nil => simp [prettyMembers]
  | cons m ms2 => simp [prettyMembers]

/-! ### Parser output well-formedness -/

theorem objSet_map_fst_mem {α : Type} :
    ∀ (acc : List (String × α)) (k : String) (v : α), k ∈ acc.map Prod.fst →
      (objSet acc k v).map Prod.fst = acc.map Prod.fst := by
  intro acc
  induction acc with
  | nil => intro k v h; simp at h
  | cons p rest ih =>
    intro k v h
    obtain ⟨k2, v2⟩ := p
    by_cases he : k2 = k
    · subst he
      rw [objSet, if_pos rfl]
      simp
    · rw [objSet, if_neg he]
      simp only [List.map_cons] at h ⊢
      rcases List.mem_cons.mp h with h | h
      · exact absurd h.symm he
      · rw [ih k v h]

theorem nodupKeysG_objSet {α : Type} (acc : List (String × α)) (k : String) (v : α)
    (h : nodupKeysG acc = true) : nodupKeysG (objSet acc k v) = true := by
  by_cases hm : k ∈ acc.map Prod.fst
  · rw [nodupKeysG_iff] at h ⊢
    rw [objSet_map_fst_mem acc k v hm]
    exact h
  · rw [objSet_append_fresh acc k v
      (fun q hq he => hm (he ▸ List.mem_map_of_mem Prod.fst hq))]
    rw [nodupKeysG_iff] at h ⊢
    simp only [List.map_append, List.map_cons, List.map_nil]
    rw [List.nodup_append]
    refine ⟨h, List.nodup_singleton k, ?_⟩
    intro a ha hb
    simp only [List.mem_singleton] at hb
    subst hb
    exact hm ha

theorem wfM_objSet (acc : List (String × JsValue)) (k : String) (v : JsValue)
    (ha : wfM acc = true) (hv : wfV v = true) : wfM (objSet acc k v) = true := by
  induction acc with
  | nil => simp [objSet, wfM, hv]
  | cons p rest ih =>
    obtain ⟨k2, v2⟩ := p
    simp only [wfM, Bool.and_eq_true] at ha
    obtain ⟨ha1, ha2⟩ := ha
    by_cases he : k2 = k
    · rw [objSet, if_pos he]
      simp [wfM, hv, ha2]
    · rw [objSet, if_neg he]
      simp [wfM, ha1, ih ha2]

theorem foldl_objSet_wf :
    ∀ (ms acc : List (String × JsValue)), nodupKeysG acc = true → wfM acc = true →
      wfM ms = true →
      nodupKeysG (ms.foldl (fun o kv => objSet o kv.1 kv.2) acc) = true ∧
      wfM (ms.foldl (fun o kv => objSet o kv.1 kv.2) acc) = true := by
  intro ms
  induction ms with
  | nil => intro acc h1 h2 _; exact ⟨h1, h2⟩
  | cons kv rest ih =>
    intro acc h1 h2 h3
    obtain ⟨k, v⟩ := kv
    simp only [wfM, Bool.and_eq_true] at h3
    rw [List.foldl_cons]
    exact ih _ (nodupKeysG_objSet acc k v h1) (wfM_objSet acc k v h2 h3.1) h3.2

set_option maxHeartbeats 1000000 in
/-- Every value produced by the parser has pairwise-distinct object keys at
every level (objects are built by the `objSet` fold). -/
theorem parse_wf : ∀ fuel : Nat,
    (∀ cs v r, parseVal fuel cs = some (v, r) → wfV v = true) ∧
    (∀ cs l r, parseItems fuel cs = some (l, r) → wfL l = true) ∧
    (∀ cs ms r, parseMembers fuel cs = some (ms, r) → wfM ms = true) := by
  intro fuel
  induction fuel with
  | zero =>
    refine ⟨?_, ?_, ?_⟩ <;> intro cs x r h <;>
      simp [parseVal, parseItems, parseMembers] at h
  | succ f ih =>
    obtain ⟨ihV, ihL, ihM⟩ := ih
    refine ⟨?_, ?_, ?_⟩
    · intro cs v r h
      rw [parseVal] at h
      split at h
      · exact absurd h (by simp)
      rename_i c rest hsk
      split_ifs at h
      · rcases hp : parseStringBody rest with _ | ⟨⟨s2, r2⟩⟩ <;> rw [hp] at h <;>
          simp only [Option.map_some', Option.map_none', Option.some.injEq,
            Prod.mk.injEq, reduceCtorEq] at h
        obtain ⟨hv, _⟩ := h
        rw [← hv]
        simp [wfV]
      · simp only [Option.some.injEq, Prod.mk.injEq] at h
        obtain ⟨hv, _⟩ := h
        rw [← hv]
        simp [wfV, wfL]
      · rcases hp : parseItems f rest with _ | ⟨⟨l2, r2⟩⟩ <;> rw [hp] at h <;>
          simp only [Option.map_some', Option.map_none', Option.some.injEq,
            Prod.mk.injEq, reduceCtorEq] at h
        obtain ⟨hv, _⟩ := h
        rw [← hv]
        simp only [wfV]
        exact ihL _ _ _ hp
      · simp only [Option.some.injEq, Prod.mk.injEq] at h
        obtain ⟨hv, _⟩ := h
        rw [← hv]
        simp [wfV, wfM, nodupKeysG]
      · rcases hp : parseMembers f rest with _ | ⟨⟨ms2, r2⟩⟩ <;> rw [hp] at h <;>
          simp only [Option.map_some', Option.map_none', Option.some.injEq,
            Prod.mk.injEq, reduceCtorEq] at h
        obtain ⟨hv, _⟩ := h
        rw [← hv]
        have hms := ihM _ _ _ hp
        obtain ⟨hnd, hwf⟩ := foldl_objSet_wf ms2 [] rfl rfl hms
        simp only [wfV, Bool.and_eq_true]
        exact ⟨hnd, hwf⟩
      · rcases hp : expectStr ['r', 'u', 'e'] rest with _ | r2 <;> rw [hp] at h <;>
          simp only [Option.map_some', Option.map_none', Option.some.injEq,
            Prod.mk.injEq, reduceCtorEq] at h
        obtain ⟨hv, _⟩ := h
        rw [← hv]
        simp [wfV]
      · rcases hp : expectStr ['a', 'l', 's', 'e'] rest with _ | r2 <;>
          rw [hp] at h <;>
          simp only [Option.map_some', Option.map_none', Option.some.injEq,
            Prod.mk.injEq, reduceCtorEq] at h
        obtain ⟨hv, _⟩ := h
        rw [← hv]
        simp [wfV]
      · rcases hp : expectStr ['u', 'l', 'l'] rest with _ | r2 <;> rw [hp] at h <;>
          simp only [Option.map_some', Option.map_none', Option.some.injEq,
            Prod.mk.injEq, reduceCtorEq] at h
        obtain ⟨hv, _⟩ := h
        rw [← hv]
        simp [wfV]
      · rcases hp : parseNumber (c :: rest) with _ | ⟨⟨n2, r2⟩⟩ <;> rw [hp] at h <;>
          simp only [Option.map_some', Option.map_none', Option.some.injEq,
            Prod.mk.injEq, reduceCtorEq] at h
        obtain ⟨hv, _⟩ := h
        rw [← hv]
        simp [wfV]
    · intro cs l r h
      rw [parseItems] at h
      split at h
      · rename_i v r1 hp1
        split at h
        · rename_i d r2 hsk
          split_ifs at h
          · rcases hp : parseItems f r2 with _ | ⟨⟨l2, r3⟩⟩ <;> rw [hp] at h <;>
              simp only [Option.map_some', Option.map_none', Option.some.injEq,
                Prod.mk.injEq, reduceCtorEq] at h
            obtain ⟨hl, _⟩ := h
            rw [← hl]
            simp only [wfL, Bool.and_eq_true]
            exact ⟨ihV _ _ _ hp1, ihL _ _ _ hp⟩
          · simp only [Option.some.injEq, Prod.mk.injEq] at h
            obtain ⟨hl, _⟩ := h
            rw [← hl]
            simp only [wfL, Bool.and_eq_true]
            exact ⟨ihV _ _ _ hp1, trivial⟩
        · exact absurd h (by simp)
      · exact absurd h (by simp)
    · intro cs ms r h
      rw [parseMembers] at h
      split at h
      · rename_i q r0 hsk0
        split_ifs at h
        · split at h
          · rename_i k r1 hps
            split at h
            · rename_i c1 r2 hsk1
              split_ifs at h
              · split at h
                · rename_i v r3 hpv
                  split at h
                  · rename_i d r4 hsk2
                    split_ifs at h
                    · rcases hp : parseMembers f r4 with _ | ⟨⟨ms2, r5⟩⟩ <;>
                        rw [hp] at h <;>
                        simp only [Option.map_some', Option.map_none',
                          Option.some.injEq, Prod.mk.injEq, reduceCtorEq] at h
                      obtain ⟨hm, _⟩ := h
                      rw [← hm]
                      simp only [wfM, Bool.and_eq_true]
                      exact ⟨ihV _ _ _ hpv, ihM _ _ _ hp⟩
                    · simp only [Option.some.injEq, Prod.mk.injEq] at h
                      obtain ⟨hm, _⟩ := h
                      rw [← hm]
                      simp only [wfM, Bool.and_eq_true]
                      exact ⟨ihV _ _ _ hpv, trivial⟩
                  · exact absurd h (by simp)
                · exact absurd h (by simp)
            · exact absurd h (by simp)
          · exact absurd h (by simp)
      · exact absurd h (by simp)

set_option maxHeartbeats 2000000 in
/-- Reparsing compact `JSON.stringify` output returns the original value
(for values with distinct object keys, as all parsed values are). -/
theorem parse_stringify : ∀ fuel : Nat,
    (∀ v rest, jsizeV v < fuel → wfV v = true →
      (∀ c, rest.head? = some c → isDigitChar c = false) →
      parseVal fuel (stringifyVal v ++ rest) = some (v, rest)) ∧
    (∀ l rest, jsizeL l < fuel → wfL l = true → l ≠ [] →
      parseItems fuel (stringifyArr l ++ ']' :: rest) = some (l, rest)) ∧
    (∀ ms rest, jsizeM ms < fuel → wfM ms = true → ms ≠ [] →
      parseMembers fuel (stringifyMembers ms ++ '}' :: rest) = some (ms, rest)) := by
  intro fuel
  induction fuel with
  | zero =>
    refine ⟨?_, ?_, ?_⟩
    · intro v rest h _ _; omega
    · intro l rest h _ _; omega
    · intro ms rest h _ _; omega
  | succ f ih =>
    obtain ⟨ihV, ihL, ihM⟩ := ih
    refine ⟨?_, ?_, ?_⟩
    · intro v rest hsz hwf hrest
      rw [parseVal]
      cases v with
      | null => simp [stringifyVal, skipWs, List.dropWhile_cons, isJsonWs, expectStr]
      | bool b =>
        cases b <;>
          simp [stringifyVal, skipWs, List.dropWhile_cons, isJsonWs, expectStr]
      | num n =>
        obtain ⟨c, t, hct, hcode⟩ := intRepr_head n
        simp only [stringifyVal]
        rw [hct, List.cons_append, skipWs_cons_not c _ (not_ws_of_codes hcode)]
        dsimp only
        rw [if_neg (char_ne_of_codes hcode '"' (by decide)),
          if_neg (char_ne_of_codes hcode '[' (by decide)),
          if_neg (char_ne_of_codes hcode '{' (by decide)),
          if_neg (char_ne_of_codes hcode 't' (by decide)),
          if_neg (char_ne_of_codes hcode 'f' (by decide)),
          if_neg (char_ne_of_codes hcode 'n' (by decide))]
        rw [show c :: (t ++ rest) = (c :: t) ++ rest from rfl, ← hct,
          parseNumber_intRepr n rest hrest, Option.map_some']
      | str s =>
        obtain ⟨sd⟩ := s
        simp only [stringifyVal]
        simp only [List.cons_append, List.append_assoc, List.singleton_append,
            List.nil_append]
        rw [skipWs_cons_not _ _ (by decide)]
        dsimp only
        rw [if_pos rfl, parseStringBody_esc, Option.map_some']
      | arr l =>
        cases l with
        | nil =>
          simp [stringifyVal, stringifyArr, skipWs, List.dropWhile_cons, isJsonWs]
        | cons w l2 =>
          simp only [jsizeV, jsizeL] at hsz
          simp only [wfV] at hwf
          obtain ⟨c, t, hct, hcws, hcne⟩ := stringifyVal_head w
          simp only [stringifyVal]
          simp only [List.cons_append, List.append_assoc, List.singleton_append,
            List.nil_append]
          rw [skipWs_cons_not _ _ (by decide)]
          dsimp only
          rw [if_neg (by decide : ¬ ('[' : Char) = '"'), if_pos rfl]
          have hhead : (skipWs (stringifyArr (w :: l2) ++ ']' :: rest)).head? =
              some c := by
            rw [stringifyArr_cons, List.append_assoc, hct, List.cons_append,
              skipWs_cons_not c _ hcws, List.head?_cons]
          rw [if_neg (show ¬ (skipWs (stringifyArr (w :: l2) ++
              ']' :: rest)).head? = some ']' by
            rw [hhead]; simp only [Option.some.injEq]; exact hcne)]
          rw [ihL (w :: l2) rest (by simp only [jsizeL]; omega) hwf (by simp),
            Option.map_some']
      | obj ms =>
        cases ms with
        | nil =>
          simp [stringifyVal, stringifyMembers, skipWs, List.dropWhile_cons,
            isJsonWs, nodupKeysG]
        | cons m ms2 =>
          obtain ⟨k, v0⟩ := m
          simp only [jsizeV, jsizeM] at hsz
          simp only [wfV, Bool.and_eq_true] at hwf
          obtain ⟨hnd, hwm⟩ := hwf
          simp only [stringifyVal]
          simp only [List.cons_append, List.append_assoc, List.singleton_append,
            List.nil_append]
          rw [skipWs_cons_not _ _ (by decide)]
          dsimp only
          rw [if_neg (by decide : ¬ ('{' : Char) = '"'),
            if_neg (by decide : ¬ ('{' : Char) = '['), if_pos rfl]
          have hhead : (skipWs (stringifyMembers ((k, v0) :: ms2) ++
              '}' :: rest)).head? = some '"' := by
            rw [stringifyMembers_cons]
            simp only [List.cons_append, List.append_assoc]
            rw [skipWs_cons_not _ _ (by decide), List.head?_cons]
          rw [if_neg (show ¬ (skipWs (stringifyMembers ((k, v0) :: ms2) ++
              '}' :: rest)).head? = some '}' by
            rw [hhead]; simp)]
          rw [ihM ((k, v0) :: ms2) rest (by simp only [jsizeM]; omega) hwm
            (by simp), Option.map_some']
          rw [foldl_objSet_append ((k, v0) :: ms2) []
            (fun p hp q hq => absurd hq (List.not_mem_nil q)) hnd,
            List.nil_append]
    · intro l rest hsz hwf hne
      cases l with
      | nil => exact absurd rfl hne
      | cons v l2 =>
        rw [parseItems]
        simp only [jsizeL] at hsz
        simp only [wfL, Bool.and_eq_true] at hwf
        obtain ⟨hwv, hwl⟩ := hwf
        cases l2 with
        | nil =>
          rw [show stringifyArr [v] = stringifyVal v by simp [stringifyArr]]
          rw [ihV v (']' :: rest) (by omega) hwv
            (by intro c hc; simp only [List.head?_cons, Option.some.injEq] at hc;
                subst hc; decide)]
          dsimp only
          rw [skipWs_cons_not _ _ (by decide)]
          dsimp only
          rw [if_neg (by decide : ¬ (']' : Char) = ','), if_pos rfl]
        | cons w l3 =>
          rw [show stringifyArr (v :: w :: l3) =
              stringifyVal v ++ ',' :: stringifyArr (w :: l3) by
            simp [stringifyArr]]
          simp only [List.append_assoc, List.cons_append]
          rw [ihV v (',' :: (stringifyArr (w :: l3) ++ ']' :: rest)) (by omega) hwv
            (by intro c hc; simp only [List.head?_cons, Option.some.injEq] at hc;
                subst hc; decide)]
          dsimp only
          rw [skipWs_cons_not _ _ (by decide)]
          dsimp only
          rw [if_pos rfl]
          rw [ihL (w :: l3) rest (by simp only [jsizeL] at hsz ⊢; omega) hwl
            (by simp), Option.map_some']
    · intro ms rest hsz hwf hne
      cases ms with
      | nil => exact absurd rfl hne
      | cons m ms2 =>
        obtain ⟨k, v⟩ := m
        obtain ⟨kd⟩ := k
        rw [parseMembers]
        simp only [jsizeM] at hsz
        simp only [wfM, Bool.and_eq_true] at hwf
        obtain ⟨hwv, hwm⟩ := hwf
        cases ms2 with
        | nil =>
          rw [show stringifyMembers [(String.mk kd, v)] =
              '"' :: escString kd ++ '"' :: ':' :: stringifyVal v by
            simp [stringifyMembers]]
          simp only [List.cons_append, List.append_assoc]
          rw [skipWs_cons_not _ _ (by decide)]
          dsimp only
          rw [if_pos rfl]
          rw [show ('"' :: ':' :: (stringifyVal v ++ '}' :: rest)) =
            '"' :: ':' :: (stringifyVal v ++ '}' :: rest) from rfl]
          rw [parseStringBody_esc kd (':' :: (stringifyVal v ++ '}' :: rest))]
          dsimp only
          rw [skipWs_cons_not _ _ (by decide)]
          dsimp only
          rw [if_pos rfl]
          rw [ihV v ('}' :: rest) (by omega) hwv
            (by intro c hc; simp only [List.head?_cons, Option.some.injEq] at hc;
                subst hc; decide)]
          dsimp only
          rw [skipWs_cons_not _ _ (by decide)]
          dsimp only
          rw [if_neg (by decide : ¬ ('}' : Char) = ','), if_pos rfl]
        | cons m2 ms3 =>
          rw [show stringifyMembers ((String.mk kd, v) :: m2 :: ms3) =
              '"' :: escString kd ++ '"' :: ':' :: stringifyVal v ++
                ',' :: stringifyMembers (m2 :: ms3) by
            simp [stringifyMembers]]
          simp only [List.cons_append, List.append_assoc]
          rw [skipWs_cons_not _ _ (by decide)]
          dsimp only
          rw [if_pos rfl]
          rw [parseStringBody_esc kd]
          dsimp only
          rw [skipWs_cons_not _ _ (by decide)]
          dsimp only
          rw [if_pos rfl]
          rw [ihV v (',' :: (stringifyMembers (m2 :: ms3) ++ '}' :: rest))
            (by omega) hwv
            (by intro c hc; simp only [List.head?_cons, Option.some.injEq] at hc;
                subst hc; decide)]
          dsimp only
          rw [skipWs_cons_not _ _ (by decide)]
          dsimp only
          rw [if_pos rfl]
          rw [ihM (m2 :: ms3) rest (by simp only [jsizeM] at hsz ⊢; omega) hwm
            (by simp), Option.map_some']

theorem skipWs_cons_ws (c : Char) (t : List Char) (h : isJsonWs c = true) :
    skipWs (c :: t) = skipWs t := by
  simp [skipWs, List.dropWhile_cons, h]

set_option maxHeartbeats 3000000 in
/-- Reparsing two-space pretty `JSON.stringify` output returns the original
value (for values with distinct object keys). -/
theorem parse_pretty : ∀ fuel : Nat,
    (∀ v ind ws rest, jsizeV v < fuel → wfV v = true →
      (∀ c ∈ ws, isJsonWs c = true) →
      (∀ c, rest.head? = some c → isDigitChar c = false) →
      parseVal fuel (ws ++ (prettyVal ind v ++ rest)) = some (v, rest)) ∧
    (∀ l ind ws1 ws2 rest, jsizeL l < fuel → wfL l = true → l ≠ [] →
      (∀ c ∈ ws1, isJsonWs c = true) → (∀ c ∈ ws2, isJsonWs c = true) →
      parseItems fuel (ws1 ++ (prettyArr ind l ++ (ws2 ++ ']' :: rest))) =
        some (l, rest)) ∧
    (∀ ms ind ws1 ws2 rest, jsizeM ms < fuel → wfM ms = true → ms ≠ [] →
      (∀ c ∈ ws1, isJsonWs c = true) → (∀ c ∈ ws2, isJsonWs c = true) →
      parseMembers fuel (ws1 ++ (prettyMembers ind ms ++ (ws2 ++ '}' :: rest))) =
        some (ms, rest)) := by
  intro fuel
  induction fuel with
  | zero =>
    refine ⟨?_, ?_, ?_⟩
    · intro v ind ws rest h _ _ _; omega
    · intro l ind ws1 ws2 rest h _ _ _ _; omega
    · intro ms ind ws1 ws2 rest h _ _ _ _; omega
  | succ f ih =>
    obtain ⟨ihV, ihL, ihM⟩ := ih
    refine ⟨?_, ?_, ?_⟩
    · intro v ind ws rest hsz hwf hws hrest
      rw [parseVal, skipWs_append_ws ws _ hws]
      cases v with
      | null => simp [prettyVal, skipWs, List.dropWhile_cons, isJsonWs, expectStr]
      | bool b =>
        cases b <;>
          simp [prettyVal, skipWs, List.dropWhile_cons, isJsonWs, expectStr]
      | num n =>
        obtain ⟨c, t, hct, hcode⟩ := intRepr_head n
        simp only [prettyVal]
        rw [hct, List.cons_append, skipWs_cons_not c _ (not_ws_of_codes hcode)]
        dsimp only
        rw [if_neg (char_ne_of_codes hcode '"' (by decide)),
          if_neg (char_ne_of_codes hcode '[' (by decide)),
          if_neg (char_ne_of_codes hcode '{' (by decide)),
          if_neg (char_ne_of_codes hcode 't' (by decide)),
          if_neg (char_ne_of_codes hcode 'f' (by decide)),
          if_neg (char_ne_of_codes hcode 'n' (by decide))]
        rw [show c :: (t ++ rest) = (c :: t) ++ rest from rfl, ← hct,
          parseNumber_intRepr n rest hrest, Option.map_some']
      | str s =>
        obtain ⟨sd⟩ := s
        simp only [prettyVal]
        simp only [List.cons_append, List.append_assoc, List.singleton_append,
          List.nil_append]
        rw [skipWs_cons_not _ _ (by decide)]
        dsimp only
        rw [if_pos rfl, parseStringBody_esc, Option.map_some']
      | arr l =>
        cases l with
        | nil =>
          simp [prettyVal, skipWs, List.dropWhile_cons, isJsonWs]
        | cons w l2 =>
          simp only [jsizeV, jsizeL] at hsz
          simp only [wfV] at hwf
          obtain ⟨c, t, hct, hcws, hcne⟩ := prettyVal_head (ind + 2) w
          simp only [prettyVal]
          simp only [List.cons_append, List.append_assoc, List.singleton_append,
            List.nil_append]
          rw [skipWs_cons_not _ _ (by decide)]
          dsimp only
          rw [if_neg (by decide : ¬ ('[' : Char) = '"'), if_pos rfl]
          have hhead : (skipWs ('\n' :: (prettyArr (ind + 2) (w :: l2) ++
              ('\n' :: (List.replicate ind ' ' ++ ']' :: rest))))).head? =
              some c := by
            rw [skipWs_cons_ws _ _ (by decide), prettyArr_cons]
            simp only [List.append_assoc]
            rw [skipWs_append_ws _ _ (replicate_ws (ind + 2)), hct,
              List.cons_append, skipWs_cons_not c _ hcws, List.head?_cons]
          rw [if_neg (show ¬ (skipWs ('\n' :: (prettyArr (ind + 2) (w :: l2) ++
              ('\n' :: (List.replicate ind ' ' ++ ']' :: rest))))).head? =
              some ']' by rw [hhead]; simp only [Option.some.injEq]; exact hcne)]
          have h3 := ihL (w :: l2) (ind + 2) ['\n'] ('\n' :: List.replicate ind ' ')
            rest (by simp only [jsizeL] at hsz ⊢; omega) hwf (by simp)
            (by intro c2 hc2; simp only [List.mem_singleton] at hc2; subst hc2;
                decide)
            (by intro c2 hc2
                rcases List.mem_cons.mp hc2 with hc2 | hc2
                · subst hc2; decide
                · exact replicate_ws ind c2 hc2)
          simp only [List.cons_append, List.nil_append, List.append_assoc] at h3
          rw [h3, Option.map_some']
      | obj ms =>
        cases ms with
        | nil =>
          simp [prettyVal, skipWs, List.dropWhile_cons, isJsonWs, nodupKeysG]
        | cons m ms2 =>
          obtain ⟨k, v0⟩ := m
          simp only [jsizeV, jsizeM] at hsz
          simp only [wfV, Bool.and_eq_true] at hwf
          obtain ⟨hnd, hwm⟩ := hwf
          simp only [prettyVal]
          simp only [List.cons_append, List.append_assoc, List.singleton_append,
            List.nil_append]
          rw [skipWs_cons_not _ _ (by decide)]
          dsimp only
          rw [if_neg (by decide : ¬ ('{' : Char) = '"'),
            if_neg (by decide : ¬ ('{' : Char) = '['), if_pos rfl]
          have hhead : (skipWs ('\n' :: (prettyMembers (ind + 2) ((k, v0) :: ms2) ++
              ('\n' :: (List.replicate ind ' ' ++ '}' :: rest))))).head? =
              some '"' := by
            rw [skipWs_cons_ws _ _ (by decide), prettyMembers_cons]
            simp only [List.append_assoc, List.cons_append]
            rw [skipWs_append_ws _ _ (replicate_ws (ind + 2)),
              skipWs_cons_not _ _ (by decide), List.head?_cons]
          rw [if_neg (show ¬ (skipWs ('\n' ::
              (prettyMembers (ind + 2) ((k, v0) :: ms2) ++
                ('\n' :: (List.replicate ind ' ' ++ '}' :: rest))))).head? =
              some '}' by rw [hhead]; simp)]
          have h3 := ihM ((k, v0) :: ms2) (ind + 2) ['\n']
            ('\n' :: List.replicate ind ' ') rest
            (by simp only [jsizeM] at hsz ⊢; omega) hwm (by simp)
            (by intro c2 hc2; simp only [List.mem_singleton] at hc2; subst hc2;
                decide)
            (by intro c2 hc2
                rcases List.mem_cons.mp hc2 with hc2 | hc2
                · subst hc2; decide
                · exact replicate_ws ind c2 hc2)
          simp only [List.cons_append, List.nil_append, List.append_assoc] at h3
          rw [h3, Option.map_some']
          rw [foldl_objSet_append ((k, v0) :: ms2) []
            (fun p hp q hq => absurd hq (List.not_mem_nil q)) hnd,
            List.nil_append]
    · intro l ind ws1 ws2 rest hsz hwf hne hws1 hws2
      cases l with
      | nil => exact absurd rfl hne
      | cons v l2 =>
        rw [parseItems]
        simp only [jsizeL] at hsz
        simp only [wfL, Bool.and_eq_true] at hwf
        obtain ⟨hwv, hwl⟩ := hwf
        have hwsr : ∀ c ∈ ws1 ++ List.replicate ind ' ', isJsonWs c = true := by
          intro c hc
          rcases List.mem_append.mp hc with hc | hc
          · exact hws1 c hc
          · exact replicate_ws ind c hc
        cases l2 with
        | nil =>
          rw [prettyArr_cons]
          simp only [List.isEmpty_nil, if_true, List.append_nil]
          simp only [List.append_assoc]
          have h2 := ihV v ind (ws1 ++ List.replicate ind ' ')
            (ws2 ++ ']' :: rest) (by omega) hwv hwsr
            (by intro c hc
                cases ws2 with
                | nil =>
                  simp only [List.nil_append, List.head?_cons,
                    Option.some.injEq] at hc
                  subst hc; decide
                | cons a t2 =>
                  simp only [List.cons_append, List.head?_cons,
                    Option.some.injEq] at hc
                  subst hc
                  exact ws_not_digit a (hws2 a (by simp)))
          simp only [List.append_assoc] at h2
          rw [h2]
          dsimp only
          rw [skipWs_append_ws ws2 _ hws2, skipWs_cons_not _ _ (by decide)]
          dsimp only
          rw [if_neg (by decide : ¬ (']' : Char) = ','), if_pos rfl]
        | cons w l3 =>
          rw [prettyArr_cons]
          simp only [List.isEmpty_cons, Bool.false_eq_true, if_false]
          simp only [List.append_assoc, List.cons_append]
          have h2 := ihV v ind (ws1 ++ List.replicate ind ' ')
            (',' :: ('\n' :: (prettyArr ind (w :: l3) ++ (ws2 ++ ']' :: rest))))
            (by omega) hwv hwsr
            (by intro c hc; simp only [List.head?_cons, Option.some.injEq] at hc;
                subst hc; decide)
          simp only [List.append_assoc] at h2
          rw [h2]
          dsimp only
          rw [skipWs_cons_not _ _ (by decide)]
          dsimp only
          rw [if_pos rfl]
          have h3 := ihL (w :: l3) ind ['\n'] ws2 rest
            (by simp only [jsizeL] at hsz ⊢; omega) hwl (by simp)
            (by intro c hc; simp only [List.mem_singleton] at hc; subst hc; decide)
            hws2
          simp only [List.cons_append, List.nil_append, List.append_assoc] at h3
          rw [h3, Option.map_some']
    · intro ms ind ws1 ws2 rest hsz hwf hne hws1 hws2
      cases ms with
      | nil => exact absurd rfl hne
      | cons m ms2 =>
        obtain ⟨k, v⟩ := m
        obtain ⟨kd⟩ := k
        rw [parseMembers]
        simp only [jsizeM] at hsz
        simp only [wfM, Bool.and_eq_true] at hwf
        obtain ⟨hwv, hwm⟩ := hwf
        rw [prettyMembers_cons]
        cases ms2 with
        | nil =>
          simp only [List.isEmpty_nil, if_true, List.append_nil]
          simp only [List.cons_append, List.append_assoc, List.nil_append]
          rw [skipWs_append_ws ws1 _ hws1,
            skipWs_append_ws _ _ (replicate_ws ind),
            skipWs_cons_not _ _ (by decide)]
          dsimp only
          rw [if_pos rfl, parseStringBody_esc]
          dsimp only
          rw [skipWs_cons_not _ _ (by decide)]
          dsimp only
          rw [if_pos rfl]
          have h2 := ihV v ind [' '] (ws2 ++ '}' :: rest) (by omega) hwv
            (by intro c hc; simp only [List.mem_singleton] at hc; subst hc; decide)
            (by intro c hc
                cases ws2 with
                | nil =>
                  simp only [List.nil_append, List.head?_cons,
                    Option.some.injEq] at hc
                  subst hc; decide
                | cons a t2 =>
                  simp only [List.cons_append, List.head?_cons,
                    Option.some.injEq] at hc
                  subst hc
                  exact ws_not_digit a (hws2 a (by simp)))
          simp only [List.cons_append, List.nil_append, List.append_assoc] at h2
          rw [h2]
          dsimp only
          rw [skipWs_append_ws ws2 _ hws2, skipWs_cons_not _ _ (by decide)]
          dsimp only
          rw [if_neg (by decide : ¬ ('}' : Char) = ','), if_pos rfl]
        | cons m2 ms3 =>
          simp only [List.isEmpty_cons, Bool.false_eq_true, if_false]
          simp only [List.cons_append, List.append_assoc, List.nil_append]
          rw [skipWs_append_ws ws1 _ hws1,
            skipWs_append_ws _ _ (replicate_ws ind),
            skipWs_cons_not _ _ (by decide)]
          dsimp only
          rw [if_pos rfl, parseStringBody_esc]
          dsimp only
          rw [skipWs_cons_not _ _ (by decide)]
          dsimp only
          rw [if_pos rfl]
          have h2 := ihV v ind [' ']
            (',' :: ('\n' :: (prettyMembers ind (m2 :: ms3) ++
              (ws2 ++ '}' :: rest))))
            (by omega) hwv
            (by intro c hc; simp only [List.mem_singleton] at hc; subst hc; decide)
            (by intro c hc; simp only [List.head?_cons, Option.some.injEq] at hc;
                subst hc; decide)
          simp only [List.cons_append, List.nil_append, List.append_assoc] at h2
          rw [h2]
          dsimp only
          rw [skipWs_cons_not _ _ (by decide)]
          dsimp only
          rw [if_pos rfl]
          have h3 := ihM (m2 :: ms3) ind ['\n'] ws2 rest
            (by simp only [jsizeM] at hsz ⊢; omega) hwm (by simp)
            (by intro c hc; simp only [List.mem_singleton] at hc; subst hc; decide)
            hws2
          simp only [List.cons_append, List.nil_append, List.append_assoc] at h3
          rw [h3, Option.map_some']

theorem jsonParse_wf (j : String) (v : JsValue) (h : jsonParse j = some v) :
    wfV v = true := by
  unfold jsonParse at h
  split at h
  · rename_i v2 r hpp
    split_ifs at h
    simp only [Option.some.injEq] at h
    subst h
    exact (parse_wf _).1 _ _ _ hpp
  · exact absurd h (by simp)

theorem jsonParse_stringifyVal (v : JsValue) (hwf : wfV v = true) :
    jsonParse (String.mk (stringifyVal v)) = some v := by
  have hpv := (parse_stringify ((stringifyVal v).length + 1)).1 v []
    (by have := jsizeV_le_length v; omega) hwf (by intro c hc; simp at hc)
  rw [List.append_nil] at hpv
  unfold jsonParse
  rw [show (String.mk (stringifyVal v)).data = stringifyVal v from rfl, hpv]
  rfl

theorem jsonParse_prettyVal (v : JsValue) (hwf : wfV v = true) :
    jsonParse (String.mk (prettyVal 0 v)) = some v := by
  have hpv := (parse_pretty ((prettyVal 0 v).length + 1)).1 v 0 [] []
    (by have := jsizeV_le_pretty 0 v; omega) hwf (by intro c hc; simp at hc)
    (by intro c hc; simp at hc)
  rw [List.nil_append, List.append_nil] at hpv
  unfold jsonParse
  rw [show (String.mk (prettyVal 0 v)).data = prettyVal 0 v from rfl, hpv]
  rfl

/-- C9: for every string that parses as valid JSON, `minifyJSON` and
`formatJSON` are idempotent: a successful output, fed back in, is returned
unchanged (hence `minify ∘ minify = minify` and `format ∘ format = format`
on valid JSON documents). -/
theorem c9_minify_format_idempotent :
    (∀ j m, minifyJSON j = Except.ok m → minifyJSON m = Except.ok m) ∧
    (∀ j p, formatJSON j = Except.ok p → formatJSON p = Except.ok p) := by
  constructor
  · intro j m h
    unfold minifyJSON at h ⊢
    rcases hp : jsonParse j with _ | v <;> rw [hp] at h
    · exact absurd h (by simp)
    · simp only [Except.ok.injEq] at h
      subst h
      rw [jsonParse_stringifyVal v (jsonParse_wf j v hp)]
  · intro j p h
    unfold formatJSON at h ⊢
    rcases hp : jsonParse j with _ | v <;> rw [hp] at h
    · exact absurd h (by simp)
    · simp only [Except.ok.injEq] at h
      subst h
      rw [jsonParse_prettyVal v (jsonParse_wf j v hp)]

theorem c9_minify_format_idempotent_witness :
    minifyJSON "[1,2]" = Except.ok "[1,2]" ∧
      formatJSON "[\n  1\n]" = Except.ok "[\n  1\n]" :=
  ⟨c9_minify_format_idempotent.1 "[ 1, 2 ]" "[1,2]" (by rfl),
   c9_minify_format_idempotent.2 "[1]" "[\n  1\n]" (by rfl)⟩

end UDT
